import Mathlib

/-!
Verification of the log anomaly detection pipeline: a shallow embedding of
the parsing, normalization, feature-extraction, baseline-detector, threshold
calibration and model-registry code, with theorems checking the system
specification against it.

Text is modelled as `List Char`.  Python regular-expression substitution is
modelled by a left-to-right scan (`scanSub`) with one matcher per pattern;
each matcher mirrors its pattern exactly (including `\b` word boundaries,
which Python evaluates against the original characters).  Standard-library
and third-party primitives (float parsing, strptime, json.loads, md5,
np.quantile, pydantic coercions) are parameters of the embedding.
-/

namespace LogAnom

abbrev Text := List Char

/-- Characters stripped by Python `str.strip()` (ASCII whitespace). -/
def pySpace (c : Char) : Bool :=
  c == ' ' || c == '\t' || c == '\n' || c == '\r' || c == '\x0b' || c == '\x0c'

/-- Python `str.strip()`. -/
def strip (s : Text) : Text :=
  ((s.dropWhile pySpace).reverse.dropWhile pySpace).reverse

def toLowerT (s : Text) : Text := s.map Char.toLower

def toUpperT (s : Text) : Text := s.map Char.toUpper

/-- `leadsWith t s` iff `t` is a leading segment of `s`. -/
def leadsWith : Text → Text → Bool
  | [], _ => true
  | _ :: _, [] => false
  | a :: as, b :: bs => a == b && leadsWith as bs

/-- `hasSub t s` iff `t` occurs contiguously inside `s`. -/
def hasSub (t : Text) : Text → Bool
  | [] => leadsWith t []
  | c :: cs => leadsWith t (c :: cs) || hasSub t cs

/-- Length of the leading run of characters satisfying `p`. -/
def countWhile (p : Char → Bool) (s : Text) : Nat := (s.takeWhile p).length

/-- Python regex word character `\w` (ASCII model). -/
def wordChar (c : Char) : Bool := c.isAlphanum || c == '_'

def hexDigit (c : Char) : Bool :=
  c.isDigit || ('a' ≤ c && c ≤ 'f') || ('A' ≤ c && c ≤ 'F')

/-- A matcher at a position: given the previous original character (for `\b`)
and the remaining input, return the length of the match, if any. -/
abbrev Matcher := Option Char → Text → Option Nat

/-- `\b` holds before the match: previous char absent or not a word char
(all our patterns start with a word character). -/
def prevOk : Option Char → Bool
  | none => true
  | some c => !wordChar c

/-- `\b` holds after the match: next char absent or not a word char
(all our patterns end with a word character). -/
def endBoundary : Text → Bool
  | [] => true
  | c :: _ => !wordChar c

/-- `IP_RE = \b\d{1,3}(?:\.\d{1,3}){3}\b`: one leading digit group and `k`
further dot-separated digit groups.  Greedy `\d{1,3}` with a following
literal forces each digit run to be maximal and of length 1..3. -/
def ipGroups : Nat → Text → Option Nat
  | 0, s =>
    let d := countWhile Char.isDigit s
    if 1 ≤ d && d ≤ 3 && endBoundary (s.drop d) then some d else none
  | k + 1, s =>
    let d := countWhile Char.isDigit s
    if 1 ≤ d && d ≤ 3 then
      match s.drop d with
      | '.' :: rest => (ipGroups k rest).map (fun n => d + 1 + n)
      | _ => none
    else none

def ipM : Matcher := fun prev s => if prevOk prev then ipGroups 3 s else none

/-- `UUID_RE`: hex groups of exact sizes 8-4-4-4-12 separated by dashes,
with `\b` at both ends. -/
def uuidGroups : List Nat → Text → Option Nat
  | [], _ => none
  | [k], s =>
    if countWhile hexDigit s == k && endBoundary (s.drop k) then some k else none
  | k :: k2 :: ks, s =>
    if countWhile hexDigit s == k then
      match s.drop k with
      | '-' :: rest => (uuidGroups (k2 :: ks) rest).map (fun n => k + 1 + n)
      | _ => none
    else none

def uuidM : Matcher := fun prev s =>
  if prevOk prev then uuidGroups [8, 4, 4, 4, 12] s else none

/-- `HEX_RE = \b0x[0-9a-fA-F]+\b`. -/
def hexM : Matcher := fun prev s =>
  if prevOk prev then
    match s with
    | c1 :: c2 :: rest =>
      if c1 == '0' && c2 == 'x' then
        let d := countWhile hexDigit rest
        if 1 ≤ d && endBoundary (rest.drop d) then some (2 + d) else none
      else none
    | _ => none
  else none

/-- `NUMBER_RE = \b\d+\b`. -/
def numM : Matcher := fun prev s =>
  if prevOk prev then
    let d := countWhile Char.isDigit s
    if 1 ≤ d && endBoundary (s.drop d) then some d else none
  else none

/-- `PATH_HEX_RE = \b[0-9a-fA-F]{6,}\b`. -/
def pathHexM : Matcher := fun prev s =>
  if prevOk prev then
    let d := countWhile hexDigit s
    if 6 ≤ d && endBoundary (s.drop d) then some d else none
  else none

/-- `re.sub` scan: find leftmost non-overlapping matches, replace each by
`tok`, and continue right after the match.  `prev` is the previous character
of the original string (boundary conditions are evaluated on the original
text, as Python does).  All the matchers above consume at least one
character (`max n 1` only guards the degenerate case), so fuel equal to the
input length is always enough; recursion is structural in the fuel to keep
the scan kernel-computable. -/
def scanSub (m : Matcher) (tok : Text) : Nat → Option Char → Text → Text
  | 0, _, s => s
  | _ + 1, _, [] => []
  | fuel + 1, prev, c :: cs =>
    match m prev (c :: cs) with
    | some n =>
      let k := max n 1
      tok ++ scanSub m tok fuel (some ((c :: cs).getD (k - 1) c)) ((c :: cs).drop k)
    | none => c :: scanSub m tok fuel (some c) cs

def reSub (m : Matcher) (tok : Text) (s : Text) : Text :=
  scanSub m tok s.length none s

def ipTok : Text := "<IP>".toList
def uuidTok : Text := "<UUID>".toList
def hexTok : Text := "<HEX>".toList
def numTok : Text := "<NUM>".toList

/-- `normalize_message`: masks applied in the fixed order IP, UUID, 0x-hex,
bare integer. -/
def normalizeMessage (s : Text) : Text :=
  reSub numM numTok (reSub hexM hexTok (reSub uuidM uuidTok (reSub ipM ipTok s)))

/-- `normalize_path`: strip the query string, mask runs of ≥ 6 hex digits,
then bare integers. -/
def normalizePath (p : Text) : Text :=
  let clean := p.takeWhile (fun c => c != '?')
  reSub numM numTok (reSub pathHexM hexTok clean)

/-! ## Data model -/

/-- A zoned instant, as produced by `datetime`.  `wday` models the derived
`weekday()` value (0 = Monday), `micro` the sub-second part that the
registry's `%Y%m%d%H%M%S` format discards. -/
structure DT where
  year : Nat
  month : Nat
  day : Nat
  hour : Nat
  minute : Nat
  second : Nat
  micro : Nat
  wday : Nat
deriving DecidableEq

/-- A JSON-ish runtime value as stored in a parsed payload dict:
Python `None`, `str`, `int`, `float`, or a `datetime` object inserted by
`_normalize_payload`. -/
inductive JVal where
  | jnull
  | jstr (s : Text)
  | jint (n : Int)
  | jnum (q : ℚ)
  | jdate (d : DT)
deriving DecidableEq

/-- `domain.models.LogEvent` (pydantic model). -/
structure LogEvent where
  timestamp : DT
  host : Option Text := none
  service : Option Text := none
  remote_addr : Option Text := none
  remote_user : Option Text := none
  method : Option Text := none
  path : Option Text := none
  protocol : Option Text := none
  status : Option Int := none
  bytes_sent : Option Int := none
  referrer : Option Text := none
  user_agent : Option Text := none
  request_time : Option ℚ := none
  message : Text := []
  level : Text := "INFO".toList
  attributes : List (Text × JVal) := []
deriving DecidableEq

/-- Python `str(n)` for naturals. -/
def natStr (n : Nat) : Text := Nat.toDigits 10 n

/-- Python `str(n)` for ints. -/
def intStr (n : Int) : Text :=
  if n < 0 then '-' :: natStr n.natAbs else natStr n.natAbs

/-- Python `a or b` for an optional string `a` defaulting to `b`
(`None` and `""` are falsy). -/
def pyOrText (a : Option Text) (b : Text) : Text :=
  match a with
  | some s => if s = [] then b else s
  | none => b

/-! ## Baseline detector (`infrastructure/models/baseline.py`) -/

/-- `_event_template`: `"{METHOD}|{status_class}|{base}"` where the base is
`normalize_path(path or "")`, falling back to `normalize_message(message)`
whenever that normalized path is empty. -/
def eventTemplate (e : LogEvent) : Text :=
  let method := toUpperT (pyOrText e.method "UNKNOWN".toList)
  let statusClass :=
    match e.status with
    | some s => if s = 0 then "0".toList else intStr (Int.fdiv s 100)
    | none => "0".toList
  let base0 := normalizePath (e.path.getD [])
  let base := if base0 = [] then normalizeMessage e.message else base0
  method ++ '|' :: (statusClass ++ '|' :: base)

def eventTemplates (batch : List LogEvent) : List Text := batch.map eventTemplate

/-- Trained state of `FrequencyBaselineDetector`: the `Counter` is modelled
as its lookup function `Counter(ts).get(t, 0) = ts.count t`; `total` and
`max_count` are the sum and max over the counter's values (counts of the
distinct templates), with `max(..., default=0)`. -/
structure BaselineModel where
  template_counts : Text → Nat
  total : Nat
  max_count : Nat

/-- `FrequencyBaselineDetector.train`. -/
def trainBaseline (batch : List LogEvent) : BaselineModel :=
  let ts := eventTemplates batch
  { template_counts := fun t => ts.count t
    total := (ts.dedup.map (fun t => ts.count t)).sum
    max_count := (ts.dedup.map (fun t => ts.count t)).foldr max 0 }

/-- `FrequencyBaselineDetector.score`, for one event. -/
def scoreEvent (m : BaselineModel) (e : LogEvent) : ℚ :=
  let c := m.template_counts (eventTemplate e)
  if m.max_count = 0 then 1 else 1 - (c : ℚ) / (m.max_count : ℚ)

/-- `FrequencyBaselineDetector.score` on a batch. -/
def scoreBaseline (m : BaselineModel) (events : List LogEvent) : List ℚ :=
  events.map (scoreEvent m)

/-! ## Theorems about the baseline detector (C1, C10, C2) -/

theorem mem_le_foldr_max (l : List Nat) (a : Nat) (h : a ∈ l) :
    a ≤ l.foldr max 0 := by
  induction l with
  | nil => cases h
  | cons b bs ih =>
    rcases List.mem_cons.mp h with h1 | h1
    · subst h1; exact Nat.le_max_left _ _
    · exact le_trans (ih h1) (Nat.le_max_right _ _)

theorem count_le_max_count (ts : List Text) (t : Text) :
    ts.count t ≤ (ts.dedup.map (fun u => ts.count u)).foldr max 0 := by
  by_cases h : t ∈ ts
  · exact mem_le_foldr_max _ _ (List.mem_map.mpr ⟨t, List.mem_dedup.mpr h, rfl⟩)
  · simp [List.count_eq_zero.mpr h]

/-- C1: an event's score is `1` when the train-time max count is `0`
(in particular on an empty training batch), and `1 - count(t)/max_count`
otherwise, where the count of a template unseen in training is `0`, so an
unseen template always scores exactly `1`.  `score` on a batch is the
per-event score, in order. -/
theorem baseline_score_spec (batch : List LogEvent) (e : LogEvent) :
    (scoreBaseline (trainBaseline batch) [e] = [scoreEvent (trainBaseline batch) e])
    ∧ ((trainBaseline batch).max_count = 0 → scoreEvent (trainBaseline batch) e = 1)
    ∧ (batch = [] → scoreEvent (trainBaseline batch) e = 1)
    ∧ ((trainBaseline batch).max_count ≠ 0 →
        scoreEvent (trainBaseline batch) e =
          1 - ((eventTemplates batch).count (eventTemplate e) : ℚ) /
              ((trainBaseline batch).max_count : ℚ))
    ∧ (eventTemplate e ∉ eventTemplates batch → scoreEvent (trainBaseline batch) e = 1) := by
  have hcounts : (trainBaseline batch).template_counts (eventTemplate e) =
      (eventTemplates batch).count (eventTemplate e) := rfl
  refine ⟨rfl, fun h => by simp [scoreEvent, h], fun h => ?_, fun h => by
    simp only [scoreEvent, hcounts, if_neg h], fun h => ?_⟩
  · subst h
    simp [scoreEvent, trainBaseline, eventTemplates]
  · have hc : (eventTemplates batch).count (eventTemplate e) = 0 :=
      List.count_eq_zero.mpr h
    by_cases hm : (trainBaseline batch).max_count = 0
    · simp [scoreEvent, hm]
    · simp only [scoreEvent, hcounts, if_neg hm, hc]
      simp

theorem baseline_score_spec_witness :
    ((trainBaseline []).max_count = 0 ∧ scoreEvent (trainBaseline []) { timestamp := ⟨2024, 1, 1, 0, 0, 0, 0, 0⟩ } = 1) := by
  exact ⟨rfl, (baseline_score_spec [] _).2.1 rfl⟩

/-- C10: every score produced by a trained baseline detector lies in `[0, 1]`,
because every template's count is at most the recorded `max_count`. -/
theorem baseline_score_bounds (batch : List LogEvent) (e : LogEvent) :
    0 ≤ scoreEvent (trainBaseline batch) e ∧ scoreEvent (trainBaseline batch) e ≤ 1 := by
  by_cases hm : (trainBaseline batch).max_count = 0
  · simp [scoreEvent, hm]
  · have hc : (eventTemplates batch).count (eventTemplate e) ≤
        (trainBaseline batch).max_count := count_le_max_count _ _
    have hmp : 0 < ((trainBaseline batch).max_count : ℚ) := by
      exact_mod_cast Nat.pos_of_ne_zero hm
    have hcq : ((eventTemplates batch).count (eventTemplate e) : ℚ) ≤
        ((trainBaseline batch).max_count : ℚ) := by exact_mod_cast hc
    have hdiv1 : ((eventTemplates batch).count (eventTemplate e) : ℚ) /
        ((trainBaseline batch).max_count : ℚ) ≤ 1 := (div_le_one hmp).mpr hcq
    have hdiv0 : 0 ≤ ((eventTemplates batch).count (eventTemplate e) : ℚ) /
        ((trainBaseline batch).max_count : ℚ) :=
      div_nonneg (by positivity) (le_of_lt hmp)
    have hcounts : (trainBaseline batch).template_counts (eventTemplate e) =
        (eventTemplates batch).count (eventTemplate e) := rfl
    constructor
    · simp only [scoreEvent, hm, if_false, hcounts]
      linarith
    · simp only [scoreEvent, hm, if_false, hcounts]
      linarith

/-- The template key described by the spec sentence of C2 (selector on the
raw path being non-empty), for comparison with `eventTemplate`. -/
def specTemplateC2 (e : LogEvent) : Text :=
  let method := toUpperT (pyOrText e.method "UNKNOWN".toList)
  let statusClass :=
    match e.status with
    | some s => if s = 0 then "0".toList else intStr (Int.fdiv s 100)
    | none => "0".toList
  let base :=
    if e.path.getD [] ≠ [] then normalizePath (e.path.getD [])
    else normalizeMessage e.message
  method ++ '|' :: (statusClass ++ '|' :: base)

/-- C2 counterexample: for a non-empty path `"?x"` (whose normalized form is
empty, the query string being stripped) the code falls back to the message
template, while the claim requires `normalize_path(path)`. -/
theorem event_template_counterexample :
    eventTemplate { timestamp := ⟨2024, 1, 1, 0, 0, 0, 0, 0⟩, path := some "?x".toList,
                    message := "hello".toList } ≠
      specTemplateC2 { timestamp := ⟨2024, 1, 1, 0, 0, 0, 0, 0⟩, path := some "?x".toList,
                       message := "hello".toList } := by
  decide

/-- C2 amended: the template key is
`"{METHOD}|{status_class}|{base}"` where the base is `normalize_path(path)`
whenever that normalized result is non-empty, and `normalize_message(message)`
otherwise (i.e. when the path is empty, absent, or normalizes to the empty
string, such as a bare query string). -/
theorem event_template_amended (e : LogEvent) :
    eventTemplate e =
      toUpperT (pyOrText e.method "UNKNOWN".toList) ++ '|' ::
        ((match e.status with
          | some s => if s = 0 then "0".toList else intStr (Int.fdiv s 100)
          | none => "0".toList) ++ '|' ::
          (if normalizePath (e.path.getD []) = [] then normalizeMessage e.message
           else normalizePath (e.path.getD []))) := by
  rfl

/-! ## Batch parsing loop (`application/parsers.py`, `LogParser.parse_lines`) -/

/-- Error taxonomy of the parsing layer: a line failing its grammar
(`FormatError`) or an unknown format selector (`UnsupportedFormatError`). -/
inductive PErr where
  | formatError (msg : Text)
  | unsupportedFormat (fmt : Text)
deriving DecidableEq

def jsonlT : Text := "jsonl".toList
def plainT : Text := "plain".toList

/-- Fail-fast traversal: first error wins, otherwise all results in order. -/
def mapME (p : α → Except ε β) : List α → Except ε (List β)
  | [] => .ok []
  | a :: as => (p a).bind fun b => (mapME p as).map fun bs => b :: bs

/-- The loop body of `parse_lines` after lowercasing the format selector:
strip each line, skip blank lines, dispatch on the format per line, append
the parsed event, and propagate the first exception. -/
def parseLinesAux (pj pp : Text → Except PErr LogEvent) (f : Text) :
    List Text → Except PErr (List LogEvent)
  | [] => .ok []
  | l :: rest =>
    let t := strip l
    if t = [] then parseLinesAux pj pp f rest
    else if f = jsonlT then
      (pj t).bind fun e => (parseLinesAux pj pp f rest).map fun es => e :: es
    else if f = plainT then
      (pp t).bind fun e => (parseLinesAux pj pp f rest).map fun es => e :: es
    else .error (.unsupportedFormat f)

/-- `LogParser.parse_lines(lines, fmt)`, parameterized by the two per-line
parsers (`parse_json_line` and `parse_plain_text`). -/
def parseLines (pj pp : Text → Except PErr LogEvent) (fmt : Text)
    (lines : List Text) : Except PErr (List LogEvent) :=
  parseLinesAux pj pp (toLowerT fmt) lines

theorem parseLinesAux_eq_mapME (pj pp : Text → Except PErr LogEvent) (f : Text)
    (hf : f = jsonlT ∨ f = plainT) (lines : List Text) :
    parseLinesAux pj pp f lines =
      mapME (if f = jsonlT then pj else pp) ((lines.map strip).filter (fun t => t ≠ [])) := by
  induction lines with
  | nil => rfl
  | cons l rest ih =>
    by_cases hb : strip l = []
    · have hfl : ((l :: rest).map strip).filter (fun t => t ≠ []) =
          (rest.map strip).filter (fun t => t ≠ []) := by simp [hb]
      rw [hfl, parseLinesAux, if_pos hb, ih]
    · have hfl : ((l :: rest).map strip).filter (fun t => t ≠ []) =
          strip l :: (rest.map strip).filter (fun t => t ≠ []) := by simp [hb]
      rw [hfl, parseLinesAux, if_neg hb, mapME, ih]
      rcases hf with hf1 | hf1 <;> subst hf1
      · rw [if_pos rfl, if_pos rfl]
      · rw [if_neg (show ¬(plainT = jsonlT) by decide),
          if_neg (show ¬(plainT = jsonlT) by decide), if_pos rfl]

theorem mapME_all_ok (p : α → Except ε β) (as : List α)
    (h : ∀ a ∈ as, ∃ b, p a = .ok b) :
    ∃ bs, mapME p as = .ok bs ∧ bs.length = as.length ∧
      ∀ i (hi : i < as.length) (hi2 : i < bs.length),
        p (as.get ⟨i, hi⟩) = .ok (bs.get ⟨i, hi2⟩) := by
  induction as with
  | nil => exact ⟨[], rfl, rfl, fun i hi => by cases hi⟩
  | cons a as ih =>
    obtain ⟨b, hb⟩ := h a (List.mem_cons_self a as)
    obtain ⟨bs, hbs, hlen, hpt⟩ := ih (fun x hx => h x (List.mem_cons_of_mem a hx))
    refine ⟨b :: bs, ?_, by simp [hlen], ?_⟩
    · simp [mapME, hb, hbs, Except.bind, Except.map]
    · intro i hi hi2
      match i with
      | 0 => simpa using hb
      | j + 1 => exact hpt j (by simpa using hi) (by simpa using hi2)

theorem mapME_first_error (p : α → Except ε β) (pre : List α) (a : α) (post : List α)
    (hpre : ∀ x ∈ pre, ∃ b, p x = .ok b) (ha : p a = .error err) :
    mapME p (pre ++ a :: post) = .error err := by
  induction pre with
  | nil => simp [mapME, ha, Except.bind]
  | cons x xs ih =>
    obtain ⟨b, hb⟩ := hpre x (List.mem_cons_self x xs)
    have := ih (fun y hy => hpre y (List.mem_cons_of_mem x hy))
    simp [mapME, hb, Except.bind, this, Except.map]

/-- C3: for a supported format selector, `parse_lines` skips lines that are
blank after stripping, and equals the fail-fast traversal of the remaining
lines by the selected per-line parser: if some non-blank line fails, the
whole call fails with the first such error (lines before it all parsed);
if all non-blank lines parse, it returns exactly one event per non-blank
line, in input order. -/
theorem parse_lines_fail_fast (pj pp : Text → Except PErr LogEvent) (fmt : Text)
    (lines : List Text) (hf : toLowerT fmt = jsonlT ∨ toLowerT fmt = plainT) :
    (parseLines pj pp fmt lines =
      mapME (if toLowerT fmt = jsonlT then pj else pp)
        ((lines.map strip).filter (fun t => t ≠ [])))
    ∧ ((∀ l ∈ lines, strip l ≠ [] →
          ∃ e, (if toLowerT fmt = jsonlT then pj else pp) (strip l) = .ok e) →
        ∃ es, parseLines pj pp fmt lines = .ok es ∧
          es.length = ((lines.map strip).filter (fun t => t ≠ [])).length ∧
          ∀ i (hi : i < ((lines.map strip).filter (fun t => t ≠ [])).length)
            (hi2 : i < es.length),
            (if toLowerT fmt = jsonlT then pj else pp)
                (((lines.map strip).filter (fun t => t ≠ [])).get ⟨i, hi⟩) =
              .ok (es.get ⟨i, hi2⟩))
    ∧ (∀ pre l post err, lines = pre ++ l :: post → strip l ≠ [] →
        (if toLowerT fmt = jsonlT then pj else pp) (strip l) = .error err →
        (∀ l2 ∈ pre, strip l2 ≠ [] →
          ∃ e, (if toLowerT fmt = jsonlT then pj else pp) (strip l2) = .ok e) →
        parseLines pj pp fmt lines = .error err) := by
  have hmain := parseLinesAux_eq_mapME pj pp (toLowerT fmt) hf lines
  refine ⟨hmain, fun hok => ?_, fun pre l post err hsplit hbl herr hpre => ?_⟩
  · have h2 : ∀ t ∈ (lines.map strip).filter (fun t => t ≠ []),
        ∃ e, (if toLowerT fmt = jsonlT then pj else pp) t = .ok e := by
      intro t ht
      have ht2 := List.of_mem_filter ht
      have ht3 := List.mem_of_mem_filter ht
      obtain ⟨l, hl, rfl⟩ := List.mem_map.mp ht3
      exact hok l hl (by simpa using ht2)
    obtain ⟨es, hes, hlen, hpt⟩ := mapME_all_ok _ _ h2
    exact ⟨es, by rw [parseLines, hmain, hes], hlen, hpt⟩
  · subst hsplit
    have hfilter : ((pre ++ l :: post).map strip).filter (fun t => t ≠ []) =
        ((pre.map strip).filter (fun t => t ≠ [])) ++ strip l ::
          ((post.map strip).filter (fun t => t ≠ [])) := by
      simp [List.filter_append, hbl]
    rw [parseLines, hmain, hfilter]
    refine mapME_first_error _ _ _ _ ?_ herr
    intro t ht
    have ht2 := List.of_mem_filter ht
    obtain ⟨l2, hl2, rfl⟩ := List.mem_map.mp (List.mem_of_mem_filter ht)
    exact hpre l2 hl2 (by simpa using ht2)

def dummyParse : Text → Except PErr LogEvent := fun _ => .error (.formatError [])

theorem parse_lines_fail_fast_witness :
    (toLowerT "JSONL".toList = jsonlT ∨ toLowerT "JSONL".toList = plainT)
    ∧ parseLines dummyParse dummyParse "JSONL".toList [" ".toList] =
        mapME (if toLowerT "JSONL".toList = jsonlT then dummyParse else dummyParse)
          (([" ".toList].map strip).filter (fun t => t ≠ [])) :=
  ⟨Or.inl (by decide),
    (parse_lines_fail_fast dummyParse dummyParse _ _ (Or.inl (by decide))).1⟩

/-- C4 counterexample: with an unsupported format selector, a call on a
list whose lines are all blank after stripping (here one space and one
empty line) returns the empty event list instead of failing with
`UnsupportedFormatError`. -/
theorem unsupported_format_counterexample :
    parseLines dummyParse dummyParse "xml".toList [" ".toList, [], "\t".toList] =
      .ok [] := by
  rfl

/-- C4 amended: the unsupported-format check happens per non-blank line, so
a call with an unsupported format selector fails with
`UnsupportedFormatError` as soon as the input contains a non-blank line,
but returns the empty event list (no error) when every line is blank after
trimming, including the empty list; in both cases no event is produced. -/
theorem unsupported_format_amended (pj pp : Text → Except PErr LogEvent)
    (fmt : Text) (lines : List Text)
    (hf : toLowerT fmt ≠ jsonlT) (hf2 : toLowerT fmt ≠ plainT) :
    ((∃ l ∈ lines, strip l ≠ []) →
      parseLines pj pp fmt lines = .error (.unsupportedFormat (toLowerT fmt)))
    ∧ ((∀ l ∈ lines, strip l = []) → parseLines pj pp fmt lines = .ok []) := by
  constructor
  · intro ⟨l, hl, hbl⟩
    rw [parseLines]
    induction lines with
    | nil => cases hl
    | cons x xs ih =>
      rcases List.mem_cons.mp hl with h1 | h1
      · subst h1
        simp [parseLinesAux, hbl, hf, hf2]
      · by_cases hx : strip x = []
        · simpa [parseLinesAux, hx] using ih h1
        · simp [parseLinesAux, hx, hf, hf2]
  · intro hall
    rw [parseLines]
    induction lines with
    | nil => rfl
    | cons x xs ih =>
      have hx := hall x (List.mem_cons_self x xs)
      simpa [parseLinesAux, hx] using ih (fun y hy => hall y (List.mem_cons_of_mem x hy))

theorem unsupported_format_amended_witness :
    (toLowerT "xml".toList ≠ jsonlT) ∧ (toLowerT "xml".toList ≠ plainT)
    ∧ parseLines dummyParse dummyParse "xml".toList ["a".toList] =
        .error (.unsupportedFormat (toLowerT "xml".toList))
    ∧ parseLines dummyParse dummyParse "xml".toList [[]] = .ok [] :=
  ⟨by decide, by decide,
    (unsupported_format_amended dummyParse dummyParse _ _ (by decide) (by decide)).1
      ⟨"a".toList, by simp, by decide⟩,
    (unsupported_format_amended dummyParse dummyParse _ _ (by decide) (by decide)).2
      (by intro l hl; simp at hl; subst hl; rfl)⟩

/-! ## Properties of the substitution scan (towards C6) -/

/-- The pattern matches somewhere in the input (with `prev` the character
just before the scanned region, for `\b`). -/
def existsMatchB (m : Matcher) : Option Char → Text → Bool
  | prev, [] => (m prev []).isSome
  | prev, c :: cs => (m prev (c :: cs)).isSome || existsMatchB m (some c) cs

theorem leadsWith_append (t x : Text) : leadsWith t (t ++ x) = true := by
  induction t with
  | nil => rfl
  | cons a as ih => simp [leadsWith, ih]

theorem hasSub_of_leadsWith (t s : Text) (h : leadsWith t s = true) :
    hasSub t s = true := by
  cases s with
  | nil => exact h
  | cons c cs => simp [hasSub, h]

theorem hasSub_cons (t : Text) (c : Char) (s : Text) (h : hasSub t s = true) :
    hasSub t (c :: s) = true := by
  simp [hasSub, h]

theorem hasSub_append_left (x t s : Text) (h : hasSub t s = true) :
    hasSub t (x ++ s) = true := by
  induction x with
  | nil => exact h
  | cons a as ih => exact hasSub_cons _ _ _ ih

theorem hasSub_nil (s : Text) : hasSub [] s = true := by
  cases s <;> simp [hasSub, leadsWith]

theorem countWhile_head (p : Char → Bool) (c : Char) (cs : Text)
    (h : 1 ≤ countWhile p (c :: cs)) : p c = true := by
  by_contra hp
  simp [countWhile, List.takeWhile_cons, hp] at h

theorem take_countWhile_all (p : Char → Bool) :
    ∀ (s : Text) (k : Nat), k ≤ countWhile p s → ∀ c ∈ s.take k, p c = true := by
  intro s
  induction s with
  | nil => intro k _ c hc; simp at hc
  | cons a as ih =>
    intro k hk c hc
    by_cases hp : p a
    · have hcw : countWhile p (a :: as) = countWhile p as + 1 := by
        simp [countWhile, List.takeWhile_cons, hp]
      match k with
      | 0 => simp at hc
      | j + 1 =>
        rw [List.take_succ_cons] at hc
        rcases List.mem_cons.mp hc with h1 | h1
        · subst h1; exact hp
        · exact ih j (by omega) c h1
    · have hcw : countWhile p (a :: as) = 0 := by
        simp [countWhile, List.takeWhile_cons, hp]
      have hk0 : k = 0 := by omega
      subst hk0
      simp at hc

/-- If a match exists, the scan emits the token. -/
theorem scanSub_finds (m : Matcher) (tok : Text) (Hne : ∀ p, m p [] = none) :
    ∀ (fuel : Nat) (prev : Option Char) (s : Text), s.length ≤ fuel →
      existsMatchB m prev s = true → hasSub tok (scanSub m tok fuel prev s) = true := by
  intro fuel
  induction fuel with
  | zero =>
    intro prev s hle hex
    have : s = [] := by cases s <;> simp_all
    subst this
    simp [existsMatchB, Hne] at hex
  | succ f ih =>
    intro prev s hle hex
    cases s with
    | nil => simp [existsMatchB, Hne] at hex
    | cons c cs =>
      cases hm : m prev (c :: cs) with
      | some n =>
        simp only [scanSub, hm]
        exact hasSub_of_leadsWith _ _ (leadsWith_append tok _)
      | none =>
        simp only [scanSub, hm]
        have hex2 : existsMatchB m (some c) cs = true := by
          simpa [existsMatchB, hm] using hex
        exact hasSub_cons _ _ _ (ih (some c) cs (by simp at hle; omega) hex2)

/-- A leading occurrence of `t` survives the scan when no match can start at
a character of `t`. -/
theorem scanSub_leadsWith (m : Matcher) (tok : Text) (startP : Char → Bool)
    (Hstart : ∀ p c cs n, m p (c :: cs) = some n → startP c = true) :
    ∀ (fuel : Nat) (prev : Option Char) (s t : Text),
      (∀ c ∈ t, startP c = false) → leadsWith t s = true →
      leadsWith t (scanSub m tok fuel prev s) = true := by
  intro fuel
  induction fuel with
  | zero => intro prev s t _ h; simpa [scanSub] using h
  | succ f ih =>
    intro prev s t ht h
    cases s with
    | nil =>
      cases t with
      | nil => simp [scanSub, leadsWith]
      | cons x ts => simp [leadsWith] at h
    | cons c cs =>
      cases t with
      | nil => simp [leadsWith]
      | cons x ts =>
        have hx : x = c ∧ leadsWith ts cs = true := by
          simpa [leadsWith, Bool.and_eq_true] using h
        cases hm : m prev (c :: cs) with
        | some n =>
          exfalso
          have h1 := Hstart prev c cs n hm
          have h2 := ht x (List.mem_cons_self x ts)
          rw [hx.1, h1] at h2
          cases h2
        | none =>
          simp only [scanSub, hm]
          have hrec := ih (some c) cs ts
            (fun a ha => ht a (List.mem_cons_of_mem x ha)) hx.2
          simp [leadsWith, hx.1, hrec]

/-- An occurrence of `x :: ts` survives dropping a block of characters that
all lie in an alphabet avoiding the head `x`. -/
theorem hasSub_drop_of_alphabet (A : Char → Bool) (x : Char) (ts : Text)
    (hxA : A x = false) :
    ∀ (n : Nat) (s : Text), (∀ c ∈ s.take n, A c = true) →
      hasSub (x :: ts) s = true → hasSub (x :: ts) (s.drop n) = true := by
  intro n
  induction n with
  | zero => intro s _ h; simpa using h
  | succ k ih =>
    intro s hA h
    cases s with
    | nil => simp [hasSub, leadsWith] at h
    | cons c cs =>
      rw [List.drop_succ_cons]
      have hc : A c = true := hA c (by simp [List.take_succ_cons])
      have h2 : hasSub (x :: ts) cs = true := by
        rcases (by simpa [hasSub] using h :
            leadsWith (x :: ts) (c :: cs) = true ∨ hasSub (x :: ts) cs = true) with h3 | h3
        · exfalso
          have hx : x = c ∧ leadsWith ts cs = true := by
            simpa [leadsWith, Bool.and_eq_true] using h3
          rw [hx.1, hc] at hxA
          cases hxA
        · exact h3
      exact ih cs
        (fun a ha => hA a (by rw [List.take_succ_cons]; exact List.mem_cons_of_mem c ha)) h2

/-- An occurrence of `t` survives the whole scan when (i) every character a
match can consume lies in alphabet `A` and `t`'s head is outside `A`, and
(ii) every character a match can start at satisfies `startP` and no
character of `t` does. -/
theorem scanSub_preserves (m : Matcher) (tok : Text) (A startP : Char → Bool)
    (HA : ∀ p l n, m p l = some n → ∀ c ∈ l.take n, A c = true)
    (Hstart : ∀ p c cs n, m p (c :: cs) = some n → startP c = true)
    (Hpos : ∀ p l n, m p l = some n → 1 ≤ n)
    (t : Text) (HtS : ∀ c ∈ t, startP c = false)
    (HtA : ∀ c ∈ t.take 1, A c = false) :
    ∀ (fuel : Nat) (prev : Option Char) (s : Text),
      hasSub t s = true → hasSub t (scanSub m tok fuel prev s) = true := by
  cases t with
  | nil => intro fuel prev s _; exact hasSub_nil _
  | cons x ts =>
    have hxA : A x = false := HtA x (by simp)
    intro fuel
    induction fuel with
    | zero => intro prev s h; simpa [scanSub] using h
    | succ f ih =>
      intro prev s h
      cases s with
      | nil => simp [hasSub, leadsWith] at h
      | cons c cs =>
        cases hm : m prev (c :: cs) with
        | some n =>
          have hn1 : 1 ≤ n := Hpos _ _ _ hm
          have hk : max n 1 = n := Nat.max_eq_left hn1
          simp only [scanSub, hm, hk]
          have hdrop : hasSub (x :: ts) ((c :: cs).drop n) = true :=
            hasSub_drop_of_alphabet A x ts hxA n (c :: cs) (HA prev (c :: cs) n hm) h
          exact hasSub_append_left tok _ _ (ih _ _ hdrop)
        | none =>
          rcases (by simpa [hasSub] using h :
              leadsWith (x :: ts) (c :: cs) = true ∨ hasSub (x :: ts) cs = true) with h3 | h3
          · have hpre := scanSub_leadsWith m tok startP Hstart (f + 1) prev (c :: cs)
              (x :: ts) HtS h3
            exact hasSub_of_leadsWith _ _ hpre
          · simp only [scanSub, hm]
            exact hasSub_cons _ _ _ (ih (some c) cs h3)

/-! Side conditions of the four `normalize_message` matchers. -/

theorem countWhile_nil (p : Char → Bool) : countWhile p [] = 0 := rfl

theorem ipM_nil (p : Option Char) : ipM p [] = none := by
  cases hp : prevOk p <;> simp [ipM, hp, ipGroups, countWhile]

theorem uuidM_nil (p : Option Char) : uuidM p [] = none := by
  cases hp : prevOk p <;> simp [uuidM, hp, uuidGroups, countWhile]

theorem hexM_nil (p : Option Char) : hexM p [] = none := by
  cases hp : prevOk p <;> simp [hexM, hp]

theorem numM_nil (p : Option Char) : numM p [] = none := by
  cases hp : prevOk p <;> simp [numM, hp, countWhile]

theorem ipGroups_pos (k : Nat) (s : Text) (n : Nat) (h : ipGroups k s = some n) :
    1 ≤ n := by
  cases k with
  | zero =>
    simp only [ipGroups] at h
    split at h
    · rename_i hcond
      cases h
      simp only [Bool.and_eq_true, decide_eq_true_eq] at hcond
      exact hcond.1.1
    · cases h
  | succ j =>
    simp only [ipGroups] at h
    split at h
    · split at h
      · rcases Option.map_eq_some'.mp h with ⟨m2, hm2, rfl⟩
        omega
      · cases h
    · cases h

theorem ipGroups_chars : ∀ (k : Nat) (s : Text) (n : Nat), ipGroups k s = some n →
    ∀ c ∈ s.take n, (c.isDigit || c == '.') = true := by
  intro k
  induction k with
  | zero =>
    intro s n h c hc
    simp only [ipGroups] at h
    split at h
    · cases h
      have := take_countWhile_all Char.isDigit s (countWhile Char.isDigit s) le_rfl c hc
      simp [this]
    · cases h
  | succ j ih =>
    intro s n h c hc
    simp only [ipGroups] at h
    split at h
    · split at h
      · rename_i rest hdrop
        rcases Option.map_eq_some'.mp h with ⟨m2, hm2, rfl⟩
        have hassoc : countWhile Char.isDigit s + 1 + m2 =
            countWhile Char.isDigit s + (m2 + 1) := by omega
        rw [hassoc, List.take_add, hdrop, List.take_succ_cons] at hc
        rcases List.mem_append.mp hc with h1 | h1
        · have := take_countWhile_all Char.isDigit s (countWhile Char.isDigit s) le_rfl c h1
          simp [this]
        · rcases List.mem_cons.mp h1 with h2 | h2
          · subst h2; simp
          · exact ih rest m2 hm2 c h2
      · cases h
    · cases h

theorem ipGroups_head (k : Nat) (c : Char) (cs : Text) (n : Nat)
    (h : ipGroups k (c :: cs) = some n) : Char.isDigit c = true := by
  cases k with
  | zero =>
    simp only [ipGroups] at h
    split at h
    · rename_i hcond
      simp only [Bool.and_eq_true, decide_eq_true_eq] at hcond
      exact countWhile_head _ _ _ hcond.1.1
    · cases h
  | succ j =>
    simp only [ipGroups] at h
    split at h
    · rename_i hcond
      simp only [Bool.and_eq_true, decide_eq_true_eq] at hcond
      exact countWhile_head _ _ _ hcond.1
    · cases h

theorem uuidGroups_pos : ∀ (ks : List Nat) (s : Text) (n : Nat),
    (∀ k ∈ ks, 1 ≤ k) → uuidGroups ks s = some n → 1 ≤ n := by
  intro ks
  induction ks with
  | nil => intro s n _ h; cases h
  | cons k rest ih =>
    intro s n hks h
    cases rest with
    | nil =>
      simp only [uuidGroups] at h
      split at h
      · cases h; exact hks k (by simp)
      · cases h
    | cons k2 ks2 =>
      simp only [uuidGroups] at h
      split at h
      · split at h
        · rcases Option.map_eq_some'.mp h with ⟨m2, hm2, rfl⟩
          omega
        · cases h
      · cases h

theorem uuidGroups_chars : ∀ (ks : List Nat) (s : Text) (n : Nat),
    uuidGroups ks s = some n → ∀ c ∈ s.take n, (hexDigit c || c == '-') = true := by
  intro ks
  induction ks with
  | nil => intro s n h; cases h
  | cons k rest ih =>
    intro s n h c hc
    cases rest with
    | nil =>
      simp only [uuidGroups] at h
      split at h
      · rename_i hcond
        cases h
        simp only [Bool.and_eq_true, beq_iff_eq] at hcond
        obtain ⟨hc1, hc2⟩ := hcond
        have := take_countWhile_all hexDigit s k (by omega) c hc
        simp [this]
      · cases h
    | cons k2 ks2 =>
      simp only [uuidGroups] at h
      split at h
      · rename_i hcond
        simp only [beq_iff_eq] at hcond
        split at h
        · rename_i rest2 hdrop
          rcases Option.map_eq_some'.mp h with ⟨m2, hm2, rfl⟩
          have hassoc : k + 1 + m2 = k + (m2 + 1) := by omega
          rw [hassoc, List.take_add, hdrop, List.take_succ_cons] at hc
          rcases List.mem_append.mp hc with h1 | h1
          · have hk : k ≤ countWhile hexDigit s := by omega
            have := take_countWhile_all hexDigit s k hk c h1
            simp [this]
          · rcases List.mem_cons.mp h1 with h2 | h2
            · subst h2; simp
            · exact ih rest2 m2 hm2 c h2
        · cases h
      · cases h

theorem uuidGroups_head (k : Nat) (ks : List Nat) (c : Char) (cs : Text) (n : Nat)
    (hk : 1 ≤ k) (h : uuidGroups (k :: ks) (c :: cs) = some n) :
    hexDigit c = true := by
  cases ks with
  | nil =>
    simp only [uuidGroups] at h
    split at h
    · rename_i hcond
      simp only [Bool.and_eq_true, beq_iff_eq] at hcond
      obtain ⟨hc1, hc2⟩ := hcond
      exact countWhile_head hexDigit c cs (by omega)
    · cases h
  | cons k2 ks2 =>
    simp only [uuidGroups] at h
    split at h
    · rename_i hcond
      simp only [beq_iff_eq] at hcond
      exact countWhile_head hexDigit c cs (by omega)
    · cases h

theorem hexM_shape (p : Option Char) (l : Text) (n : Nat) (h : hexM p l = some n) :
    ∃ rest, l = '0' :: 'x' :: rest ∧ n = 2 + countWhile hexDigit rest ∧
      1 ≤ countWhile hexDigit rest := by
  simp only [hexM] at h
  split at h
  · split at h
    · rename_i c1 c2 rest
      split at h
      · rename_i hcc
        simp only [Bool.and_eq_true, beq_iff_eq] at hcc
        split at h
        · rename_i hcond
          simp only [Bool.and_eq_true, decide_eq_true_eq] at hcond
          cases h
          exact ⟨rest, by rw [hcc.1, hcc.2], rfl, hcond.1⟩
        · cases h
      · cases h
    · cases h
  · cases h

theorem hexM_pos (p : Option Char) (l : Text) (n : Nat) (h : hexM p l = some n) :
    1 ≤ n := by
  obtain ⟨rest, _, rfl, _⟩ := hexM_shape p l n h
  omega

theorem hexM_chars (p : Option Char) (l : Text) (n : Nat) (h : hexM p l = some n) :
    ∀ c ∈ l.take n, (hexDigit c || c == 'x') = true := by
  obtain ⟨rest, rfl, rfl, _⟩ := hexM_shape p l n h
  intro c hc
  have hassoc : 2 + countWhile hexDigit rest = countWhile hexDigit rest + 1 + 1 := by
    omega
  rw [hassoc, List.take_succ_cons, List.take_succ_cons] at hc
  rcases List.mem_cons.mp hc with h1 | h1
  · subst h1; decide
  · rcases List.mem_cons.mp h1 with h2 | h2
    · subst h2; simp
    · have := take_countWhile_all hexDigit rest (countWhile hexDigit rest) le_rfl c h2
      simp [this]

theorem hexM_head (p : Option Char) (c : Char) (cs : Text) (n : Nat)
    (h : hexM p (c :: cs) = some n) : (c == '0') = true := by
  obtain ⟨rest, heq, _, _⟩ := hexM_shape p (c :: cs) n h
  cases heq
  decide

theorem numM_shape (p : Option Char) (l : Text) (n : Nat) (h : numM p l = some n) :
    n = countWhile Char.isDigit l ∧ 1 ≤ n := by
  simp only [numM] at h
  split at h
  · split at h
    · rename_i hcond
      simp only [Bool.and_eq_true, decide_eq_true_eq] at hcond
      cases h
      exact ⟨rfl, hcond.1⟩
    · cases h
  · cases h

theorem numM_pos (p : Option Char) (l : Text) (n : Nat) (h : numM p l = some n) :
    1 ≤ n := (numM_shape p l n h).2

theorem numM_chars (p : Option Char) (l : Text) (n : Nat) (h : numM p l = some n) :
    ∀ c ∈ l.take n, Char.isDigit c = true := by
  obtain ⟨rfl, _⟩ := numM_shape p l n h
  exact take_countWhile_all Char.isDigit l _ le_rfl

theorem numM_head (p : Option Char) (c : Char) (cs : Text) (n : Nat)
    (h : numM p (c :: cs) = some n) : Char.isDigit c = true := by
  obtain ⟨hn, h1⟩ := numM_shape p (c :: cs) n h
  exact countWhile_head Char.isDigit c cs (by omega)

theorem ipM_pos (p : Option Char) (l : Text) (n : Nat) (h : ipM p l = some n) :
    1 ≤ n := by
  simp only [ipM] at h
  split at h
  · exact ipGroups_pos 3 l n h
  · cases h

theorem ipM_chars (p : Option Char) (l : Text) (n : Nat) (h : ipM p l = some n) :
    ∀ c ∈ l.take n, (c.isDigit || c == '.') = true := by
  simp only [ipM] at h
  split at h
  · exact ipGroups_chars 3 l n h
  · cases h

theorem ipM_head (p : Option Char) (c : Char) (cs : Text) (n : Nat)
    (h : ipM p (c :: cs) = some n) : Char.isDigit c = true := by
  simp only [ipM] at h
  split at h
  · exact ipGroups_head 3 c cs n h
  · cases h

theorem uuidM_pos (p : Option Char) (l : Text) (n : Nat) (h : uuidM p l = some n) :
    1 ≤ n := by
  simp only [uuidM] at h
  split at h
  · exact uuidGroups_pos _ l n (by decide) h
  · cases h

theorem uuidM_chars (p : Option Char) (l : Text) (n : Nat) (h : uuidM p l = some n) :
    ∀ c ∈ l.take n, (hexDigit c || c == '-') = true := by
  simp only [uuidM] at h
  split at h
  · exact uuidGroups_chars _ l n h
  · cases h

theorem uuidM_head (p : Option Char) (c : Char) (cs : Text) (n : Nat)
    (h : uuidM p (c :: cs) = some n) : hexDigit c = true := by
  simp only [uuidM] at h
  split at h
  · exact uuidGroups_head 8 _ c cs n (by omega) h
  · cases h

/-- C6 counterexample: the string below contains (in the regex sense, with
word boundaries) an IPv4 address, a UUID, a `0x`-hex literal and a bare
integer — the leading octet `1` matches `\b\d+\b` on its own, bounded by
the start of the string and a dot.  Yet the output of `normalize_message`
contains no `<NUM>` token, because the only bare integers lie inside the
IP span and are consumed by the earlier IP mask. -/
theorem normalize_message_counterexample :
    existsMatchB ipM none
        "1.2.3.4 12345678-1234-1234-1234-123456789012 0xAB".toList = true
    ∧ existsMatchB uuidM none
        "1.2.3.4 12345678-1234-1234-1234-123456789012 0xAB".toList = true
    ∧ existsMatchB hexM none
        "1.2.3.4 12345678-1234-1234-1234-123456789012 0xAB".toList = true
    ∧ existsMatchB numM none
        "1.2.3.4 12345678-1234-1234-1234-123456789012 0xAB".toList = true
    ∧ hasSub numTok
        (normalizeMessage
          "1.2.3.4 12345678-1234-1234-1234-123456789012 0xAB".toList) = false := by
  decide

/-- C6 amended: `normalize_message` is definitionally the composition of the
four masks in the fixed order IP, UUID, `0x`-hex, bare integer; and whenever
the IP pattern matches the input, the UUID pattern matches the IP-masked
string, the hex pattern matches the UUID-masked string, and the integer
pattern matches the hex-masked string (i.e. each of the four items occurs
and is not consumed by an earlier mask — e.g. the bare integer does not sit
inside the IP/UUID/hex spans), the output contains all four placeholder
tokens. -/
theorem normalize_message_amended (s : Text)
    (h1 : existsMatchB ipM none s = true)
    (h2 : existsMatchB uuidM none (reSub ipM ipTok s) = true)
    (h3 : existsMatchB hexM none (reSub uuidM uuidTok (reSub ipM ipTok s)) = true)
    (h4 : existsMatchB numM none
        (reSub hexM hexTok (reSub uuidM uuidTok (reSub ipM ipTok s))) = true) :
    normalizeMessage s =
      reSub numM numTok (reSub hexM hexTok (reSub uuidM uuidTok (reSub ipM ipTok s)))
    ∧ hasSub ipTok (normalizeMessage s) = true
    ∧ hasSub uuidTok (normalizeMessage s) = true
    ∧ hasSub hexTok (normalizeMessage s) = true
    ∧ hasSub numTok (normalizeMessage s) = true := by
  have hip1 : hasSub ipTok (reSub ipM ipTok s) = true :=
    scanSub_finds ipM ipTok ipM_nil s.length none s le_rfl h1
  have huu2 : hasSub uuidTok (reSub uuidM uuidTok (reSub ipM ipTok s)) = true :=
    scanSub_finds uuidM uuidTok uuidM_nil _ none _ le_rfl h2
  have hhx3 : hasSub hexTok
      (reSub hexM hexTok (reSub uuidM uuidTok (reSub ipM ipTok s))) = true :=
    scanSub_finds hexM hexTok hexM_nil _ none _ le_rfl h3
  have hnm4 : hasSub numTok (normalizeMessage s) = true :=
    scanSub_finds numM numTok numM_nil _ none _ le_rfl h4
  have hip2 : hasSub ipTok (reSub uuidM uuidTok (reSub ipM ipTok s)) = true :=
    scanSub_preserves uuidM uuidTok (fun c => hexDigit c || c == '-') hexDigit
      uuidM_chars uuidM_head uuidM_pos ipTok (by decide) (by decide) _ none _ hip1
  have hip3 : hasSub ipTok
      (reSub hexM hexTok (reSub uuidM uuidTok (reSub ipM ipTok s))) = true :=
    scanSub_preserves hexM hexTok (fun c => hexDigit c || c == 'x') (fun c => c == '0')
      hexM_chars hexM_head hexM_pos ipTok (by decide) (by decide) _ none _ hip2
  have hip4 : hasSub ipTok (normalizeMessage s) = true :=
    scanSub_preserves numM numTok Char.isDigit Char.isDigit
      numM_chars numM_head numM_pos ipTok (by decide) (by decide) _ none _ hip3
  have huu3 : hasSub uuidTok
      (reSub hexM hexTok (reSub uuidM uuidTok (reSub ipM ipTok s))) = true :=
    scanSub_preserves hexM hexTok (fun c => hexDigit c || c == 'x') (fun c => c == '0')
      hexM_chars hexM_head hexM_pos uuidTok (by decide) (by decide) _ none _ huu2
  have huu4 : hasSub uuidTok (normalizeMessage s) = true :=
    scanSub_preserves numM numTok Char.isDigit Char.isDigit
      numM_chars numM_head numM_pos uuidTok (by decide) (by decide) _ none _ huu3
  have hhx4 : hasSub hexTok (normalizeMessage s) = true :=
    scanSub_preserves numM numTok Char.isDigit Char.isDigit
      numM_chars numM_head numM_pos hexTok (by decide) (by decide) _ none _ hhx3
  exact ⟨rfl, hip4, huu4, hhx4, hnm4⟩

theorem normalize_message_amended_witness :
    (existsMatchB ipM none
        "1.2.3.4 12345678-1234-1234-1234-123456789012 0xAB 7".toList = true)
    ∧ (existsMatchB uuidM none
        (reSub ipM ipTok
          "1.2.3.4 12345678-1234-1234-1234-123456789012 0xAB 7".toList) = true)
    ∧ (hasSub ipTok (normalizeMessage
        "1.2.3.4 12345678-1234-1234-1234-123456789012 0xAB 7".toList) = true
      ∧ hasSub uuidTok (normalizeMessage
        "1.2.3.4 12345678-1234-1234-1234-123456789012 0xAB 7".toList) = true
      ∧ hasSub hexTok (normalizeMessage
        "1.2.3.4 12345678-1234-1234-1234-123456789012 0xAB 7".toList) = true
      ∧ hasSub numTok (normalizeMessage
        "1.2.3.4 12345678-1234-1234-1234-123456789012 0xAB 7".toList) = true) :=
  ⟨by decide, by decide,
    ((normalize_message_amended _ (by decide) (by decide) (by decide) (by decide)).2)⟩

/-! ## Threshold calibration (`application/training.py`) -/

/-- `_calibrate_threshold`, with `np.quantile` (a third-party primitive)
passed as a parameter and the detector represented by its `contamination`
configuration value (the `IsolationForestDetector` constructor default is
`0.05`).  `model_type` arrives lowercased from `train_model`. -/
def calibrateThreshold (npQuantile : List ℚ → ℚ → ℚ) (scores : List ℚ)
    (model_type : Text) (contamination : ℚ) : ℚ × ℚ :=
  if scores = [] then (0, 0.95)
  else
    let quantile := if model_type = "baseline".toList then (0.95 : ℚ) else 1 - contamination
    (npQuantile scores quantile, quantile)

/-- C8: calibration picks quantile `0.95` for the baseline variant and
`1 - contamination` for the external-model variant, returning that quantile
of the score list as the threshold; an empty score list never fails and
yields threshold `0` at quantile `0.95`. -/
theorem calibrate_threshold_spec (npQuantile : List ℚ → ℚ → ℚ) (scores : List ℚ)
    (model_type : Text) (contamination : ℚ) :
    (scores = [] →
      calibrateThreshold npQuantile scores model_type contamination = (0, 0.95))
    ∧ (scores ≠ [] → model_type = "baseline".toList →
      calibrateThreshold npQuantile scores model_type contamination =
        (npQuantile scores 0.95, 0.95))
    ∧ (scores ≠ [] → model_type ≠ "baseline".toList →
      calibrateThreshold npQuantile scores model_type contamination =
        (npQuantile scores (1 - contamination), 1 - contamination)) := by
  refine ⟨fun h => by simp [calibrateThreshold, h], fun h hb => ?_, fun h hb => ?_⟩
  · unfold calibrateThreshold
    rw [if_neg h]
    simp only [if_pos hb]
  · unfold calibrateThreshold
    rw [if_neg h]
    simp only [if_neg hb]

def npQuantileZero : List ℚ → ℚ → ℚ := fun _ _ => 0

theorem calibrate_threshold_spec_witness :
    calibrateThreshold npQuantileZero [] "baseline".toList 0.05 = (0, 0.95)
    ∧ calibrateThreshold npQuantileZero [1] "baseline".toList 0.05 =
        (npQuantileZero [1] 0.95, 0.95)
    ∧ calibrateThreshold npQuantileZero [1] "iforest".toList 0.05 =
        (npQuantileZero [1] (1 - 0.05), 1 - 0.05) :=
  ⟨(calibrate_threshold_spec npQuantileZero [] _ 0.05).1 rfl,
    (calibrate_threshold_spec npQuantileZero [1] _ 0.05).2.1 (by simp) rfl,
    (calibrate_threshold_spec npQuantileZero [1] _ 0.05).2.2 (by simp) (by decide)⟩

/-! ## Model registry versioning (`infrastructure/registry.py`) -/

/-- MSD-first zero-padded decimal rendering of `n` to width `w`, as produced
by `strftime` field formatting. -/
def natPad : Nat → Nat → Text
  | 0, _ => []
  | w + 1, n => natPad w (n / 10) ++ [Nat.digitChar (n % 10)]

/-- `datetime.now(timezone.utc).strftime("%Y%m%d%H%M%S")`: the version
identifier allocated by `ModelRegistry.save`.  Sub-second precision
(`micro`) is discarded by the format. -/
def strftime14 (d : DT) : Text :=
  natPad 4 d.year ++ natPad 2 d.month ++ natPad 2 d.day ++ natPad 2 d.hour ++
    natPad 2 d.minute ++ natPad 2 d.second

/-- The metadata record written by `ModelRegistry.save` (fields relevant to
versioning). -/
structure Metadata where
  model_type : Text
  version : Text
  path : Text
deriving DecidableEq

/-- `ModelRegistry.save`, as a function of the wall-clock reading `now`. -/
def registrySave (base : Text) (model_type : Text) (now : DT) : Metadata :=
  let timestamp := strftime14 now
  { model_type := model_type
    version := timestamp
    path := base ++ '/' :: (model_type ++ '_' :: timestamp) }

/-- Strict lexicographic order on strings (how 14-digit version strings
compare). -/
def lexLt : Text → Text → Bool
  | [], [] => false
  | [], _ :: _ => true
  | _ :: _, [] => false
  | a :: as, b :: bs => if a = b then lexLt as bs else decide (a < b)

/-- The numeric reading of a timestamp truncated to seconds. -/
def dtKey (d : DT) : Nat :=
  ((((d.year * 100 + d.month) * 100 + d.day) * 100 + d.hour) * 100 + d.minute) * 100 +
    d.second

/-- C9 counterexample: two saves in the same second (clock readings that
differ only in microseconds) produce identical version strings, so the
second version is not strictly greater. -/
theorem registry_version_counterexample :
    (registrySave "artifacts".toList "baseline".toList
        ⟨2026, 1, 2, 3, 4, 5, 0, 0⟩).version =
      (registrySave "artifacts".toList "baseline".toList
        ⟨2026, 1, 2, 3, 4, 5, 999999, 0⟩).version
    ∧ (⟨2026, 1, 2, 3, 4, 5, 0, 0⟩ : DT) ≠ ⟨2026, 1, 2, 3, 4, 5, 999999, 0⟩
    ∧ lexLt
        (registrySave "artifacts".toList "baseline".toList
          ⟨2026, 1, 2, 3, 4, 5, 0, 0⟩).version
        (registrySave "artifacts".toList "baseline".toList
          ⟨2026, 1, 2, 3, 4, 5, 999999, 0⟩).version = false := by
  decide

theorem natPad_append2 (a : Nat) (x z : Nat) (hz : z < 100) :
    natPad a x ++ natPad 2 z = natPad (a + 2) (x * 100 + z) := by
  have h1 : (x * 100 + z) / 10 = x * 10 + z / 10 := by omega
  have h2 : (x * 100 + z) % 10 = z % 10 := by omega
  have h3 : (x * 10 + z / 10) / 10 = x := by omega
  have h4 : (x * 10 + z / 10) % 10 = z / 10 := by omega
  have h5 : z / 10 % 10 = z / 10 := by omega
  simp only [natPad, h1, h2, h3, h4, h5, List.append_assoc, List.nil_append]

theorem strftime14_eq (d : DT) (hmo : d.month < 100) (hd : d.day < 100)
    (hh : d.hour < 100) (hmi : d.minute < 100) (hs : d.second < 100) :
    strftime14 d = natPad 14 (dtKey d) := by
  unfold strftime14 dtKey
  rw [natPad_append2 4 d.year d.month hmo, natPad_append2 6 _ d.day hd,
    natPad_append2 8 _ d.hour hh, natPad_append2 10 _ d.minute hmi,
    natPad_append2 12 _ d.second hs]

theorem natPad_len (w n : Nat) : (natPad w n).length = w := by
  induction w generalizing n with
  | zero => rfl
  | succ v ih => simp [natPad, ih]

theorem lexLt_append_of_lexLt :
    ∀ (a b x y : Text), a.length = b.length → lexLt a b = true →
      lexLt (a ++ x) (b ++ y) = true := by
  intro a
  induction a with
  | nil =>
    intro b x y hlen h
    cases b with
    | nil => simp [lexLt] at h
    | cons d bs => simp at hlen
  | cons c as ih =>
    intro b x y hlen h
    cases b with
    | nil => simp at hlen
    | cons d bs =>
      simp only [lexLt] at h
      simp only [List.cons_append, lexLt]
      split at h
      · rename_i hcd
        rw [if_pos hcd]
        exact ih bs x y (by simpa using hlen) h
      · rename_i hcd
        rw [if_neg hcd]
        exact h

theorem lexLt_append_same :
    ∀ (a x y : Text), lexLt x y = true → lexLt (a ++ x) (a ++ y) = true := by
  intro a
  induction a with
  | nil => intro x y h; simpa using h
  | cons c as ih =>
    intro x y h
    simp only [List.cons_append, lexLt, if_pos rfl]
    exact ih x y h

theorem digitChar_mono : ∀ i < 10, ∀ j < 10, i < j →
    (Nat.digitChar i = Nat.digitChar j → False) ∧ Nat.digitChar i < Nat.digitChar j := by
  decide

theorem natPad_lt (w : Nat) : ∀ (m n : Nat), m < n → n < 10 ^ w →
    lexLt (natPad w m) (natPad w n) = true := by
  induction w with
  | zero => intro m n hmn hn; simp at hn; omega
  | succ v ih =>
    intro m n hmn hn
    rcases Nat.lt_or_ge (m / 10) (n / 10) with hdiv | hdiv
    · have hn10 : n / 10 < 10 ^ v := by
        rw [Nat.div_lt_iff_lt_mul (by norm_num)]
        calc n < 10 ^ (v + 1) := hn
        _ = 10 ^ v * 10 := by rw [pow_succ]
      have hlex := ih (m / 10) (n / 10) hdiv hn10
      simp only [natPad]
      exact lexLt_append_of_lexLt _ _ _ _ (by rw [natPad_len, natPad_len]) hlex
    · have heq : m / 10 = n / 10 :=
        le_antisymm (Nat.div_le_div_right (le_of_lt hmn)) hdiv
      have hmod : m % 10 < n % 10 := by omega
      simp only [natPad, heq]
      refine lexLt_append_same _ _ _ ?_
      have hdm := digitChar_mono (m % 10) (by omega) (n % 10) (by omega) hmod
      simp only [lexLt]
      rw [if_neg (fun hcontra => hdm.1 hcontra)]
      simp [hdm.2]

theorem lexLt_irrefl : ∀ a : Text, lexLt a a = false := by
  intro a
  induction a with
  | nil => rfl
  | cons c as ih => simp [lexLt, ih]

theorem lexLt_asymm : ∀ a b : Text, lexLt a b = true → lexLt b a = false := by
  intro a
  induction a with
  | nil =>
    intro b h
    cases b with
    | nil => simp [lexLt] at h
    | cons d bs => simp [lexLt]
  | cons c as ih =>
    intro b h
    cases b with
    | nil => simp [lexLt] at h
    | cons d bs =>
      simp only [lexLt] at h ⊢
      split at h
      · rename_i hcd
        subst hcd
        rw [if_pos rfl]
        exact ih bs h
      · rename_i hcd
        have hlt : c < d := by simpa using h
        rw [if_neg (fun h2 => hcd h2.symm)]
        simp [lt_asymm hlt]

/-- C9 amended: the version identifier is the wall-clock reading formatted
at one-second resolution, so across two consecutive saves the version is
equal whenever the readings agree once truncated to seconds (e.g. two saves
within the same second, the counterexample above), and is strictly greater
(lexicographically, equivalently numerically on the 14-digit strings)
exactly when the truncated reading strictly advances. -/
theorem registry_version_amended (base mt : Text) (d1 d2 : DT)
    (hb1 : d1.year < 10000 ∧ d1.month < 100 ∧ d1.day < 100 ∧ d1.hour < 100 ∧
      d1.minute < 100 ∧ d1.second < 100)
    (hb2 : d2.year < 10000 ∧ d2.month < 100 ∧ d2.day < 100 ∧ d2.hour < 100 ∧
      d2.minute < 100 ∧ d2.second < 100) :
    (dtKey d1 = dtKey d2 →
      (registrySave base mt d1).version = (registrySave base mt d2).version)
    ∧ (dtKey d1 < dtKey d2 →
      lexLt (registrySave base mt d1).version (registrySave base mt d2).version = true)
    ∧ (dtKey d2 ≤ dtKey d1 →
      lexLt (registrySave base mt d1).version (registrySave base mt d2).version = false) := by
  obtain ⟨hy1, hmo1, hd1, hh1, hmi1, hs1⟩ := hb1
  obtain ⟨hy2, hmo2, hd2, hh2, hmi2, hs2⟩ := hb2
  have hv1 : (registrySave base mt d1).version = natPad 14 (dtKey d1) :=
    strftime14_eq d1 hmo1 hd1 hh1 hmi1 hs1
  have hv2 : (registrySave base mt d2).version = natPad 14 (dtKey d2) :=
    strftime14_eq d2 hmo2 hd2 hh2 hmi2 hs2
  have hkey2 : dtKey d2 < 10 ^ 14 := by
    have h14 : (10 : Nat) ^ 14 = 100000000000000 := by norm_num
    unfold dtKey
    omega
  have hkey1 : dtKey d1 < 10 ^ 14 := by
    have h14 : (10 : Nat) ^ 14 = 100000000000000 := by norm_num
    unfold dtKey
    omega
  refine ⟨fun h => by rw [hv1, hv2, h], fun h => ?_, fun h => ?_⟩
  · rw [hv1, hv2]
    exact natPad_lt 14 _ _ h hkey2
  · rcases Nat.lt_or_ge (dtKey d2) (dtKey d1) with h2 | h2
    · have := natPad_lt 14 _ _ h2 hkey1
      rw [hv1, hv2]
      exact lexLt_asymm _ _ this
    · have heq : dtKey d1 = dtKey d2 := le_antisymm h2 h
      rw [hv1, hv2, heq]
      exact lexLt_irrefl _

theorem registry_version_amended_witness :
    dtKey (⟨2026, 1, 2, 3, 4, 5, 500000, 0⟩ : DT) < dtKey (⟨2026, 1, 2, 3, 4, 6, 0, 0⟩ : DT)
    ∧ lexLt
        (registrySave "artifacts".toList "baseline".toList
          ⟨2026, 1, 2, 3, 4, 5, 500000, 0⟩).version
        (registrySave "artifacts".toList "baseline".toList
          ⟨2026, 1, 2, 3, 4, 6, 0, 0⟩).version = true :=
  ⟨by decide,
    (registry_version_amended "artifacts".toList "baseline".toList _ _
      (by decide) (by decide)).2.1 (by decide)⟩

/-! ## Feature extraction (`application/features.py`) -/

/-- `path_extension`: lowercase suffix after the last `.` before any `?`. -/
def pathExtension (p : Text) : Text :=
  let clean := p.takeWhile (fun c => c != '?')
  if '.' ∈ clean then '.' :: toLowerT (clean.reverse.takeWhile (fun c => c != '.')).reverse
  else []

/-- The part after the first `"//"` marker (after `"://"` or at the start),
up to `/`, `?` or `#`: a model of stdlib `urlparse(...).netloc` for the
common URL shapes. -/
def urlNetloc : Text → Text
  | [] => []
  | ':' :: '/' :: '/' :: rest => rest.takeWhile (fun c => c != '/' && c != '?' && c != '#')
  | '/' :: '/' :: rest => rest.takeWhile (fun c => c != '/' && c != '?' && c != '#')
  | _ :: cs => urlNetloc cs

/-- `referrer_domain`. -/
def referrerDomain (r : Option Text) : Text :=
  match r with
  | none => []
  | some s =>
    if s = [] || s = "-".toList then []
    else
      let netloc := urlNetloc s
      if netloc = [] then s else netloc

/-- `METHOD_MAP.get(method, -1)`. -/
def methodCode (m : Text) : Int :=
  if m = "GET".toList then 0
  else if m = "POST".toList then 1
  else if m = "PUT".toList then 2
  else if m = "DELETE".toList then 3
  else if m = "PATCH".toList then 4
  else if m = "HEAD".toList then 5
  else if m = "OPTIONS".toList then 6
  else -1

/-- Literal alternatives of `SUSPICIOUS_PATH_RE` (case-insensitive search). -/
def suspiciousPats : List Text :=
  ["../".toList, "/.env".toList, "/wp-admin".toList, "/wp-login".toList,
    "/phpmyadmin".toList, "/etc/passwd".toList, "/.git".toList, "/admin".toList,
    "/login".toList]

/-- Literal alternatives of `SQLI_RE`. -/
def sqliPats : List Text :=
  ["union".toList, "select".toList, "insert".toList, "drop".toList,
    "or%201=1".toList, "sleep(".toList]

/-- Literal alternatives of `BOT_RE`. -/
def botPats : List Text :=
  ["bot".toList, "crawler".toList, "spider".toList, "scrapy".toList, "curl".toList,
    "wget".toList, "sqlmap".toList, "nikto".toList]

/-- `regex.search` for an alternation of lowercase literals with
`re.IGNORECASE`. -/
def searchAny (pats : List Text) (s : Text) : Bool :=
  pats.any (fun p => hasSub p (toLowerT s))

def staticExtensions : List Text :=
  [".css".toList, ".js".toList, ".png".toList, ".jpg".toList, ".jpeg".toList,
    ".gif".toList, ".ico".toList, ".svg".toList, ".woff".toList, ".woff2".toList]

/-- `_hash_bucket` with the md5 integer digest as a parameter: a non-empty
string maps to `(digest % 1000) / 1000 ∈ [0, 1)`, the empty string to 0. -/
noncomputable def hashBucket (digest : Text → Nat) (value : Text) : ℝ :=
  if value = [] then 0 else ((digest value % 1000 : ℕ) : ℝ) / 1000

/-- Python `str.split(sep)` (keeping empty segments). -/
def splitOnChar (sep : Char) : Text → List Text
  | [] => [[]]
  | c :: cs =>
    if c = sep then [] :: splitOnChar sep cs
    else
      match splitOnChar sep cs with
      | [] => [[c]]
      | t :: ts => (c :: t) :: ts

/-- `math.log1p`. -/
noncomputable def log1p (x : ℝ) : ℝ := Real.log (1 + x)

structure TimeFeats where
  hour : ℝ
  hourSin : ℝ
  hourCos : ℝ
  weekday : ℝ
  isWeekend : ℝ

/-- `_time_features`. -/
noncomputable def timeFeatures (t : DT) : TimeFeats :=
  let hour : ℝ := t.hour
  let radians : ℝ := 2 * Real.pi * hour / 24
  { hour := hour
    hourSin := Real.sin radians
    hourCos := Real.cos radians
    weekday := t.wday
    isWeekend := if 5 ≤ t.wday then 1 else 0 }

def optTruthyT (o : Option Text) : Bool :=
  match o with
  | some s => !s.isEmpty
  | none => false

/-- `FeatureExtractor._event_to_features`: the 25-dimensional vector, in the
fixed order of `feature_names`. -/
noncomputable def eventToFeatures (digest : Text → Nat) (e : LogEvent) : List ℝ :=
  let status : Int := match e.status with | some s => s | none => 0
  let statusClass : Int := if status = 0 then 0 else Int.fdiv status 100
  let method := toUpperT (e.method.getD [])
  let path := e.path.getD []
  let tf := timeFeatures e.timestamp
  [(status : ℝ),
    (statusClass : ℝ),
    (methodCode method : ℝ),
    (path.length : ℝ),
    ((path.filter (fun c => c == '/')).length : ℝ),
    (((splitOnChar '/' path).filter (fun t => t ≠ [])).length : ℝ),
    if '?' ∈ path then 1 else 0,
    if pathExtension path ∈ staticExtensions then 1 else 0,
    log1p ((e.bytes_sent.getD 0 : Int) : ℝ),
    log1p ((e.request_time.getD 0 : ℚ) : ℝ),
    hashBucket digest (referrerDomain e.referrer),
    hashBucket digest (e.user_agent.getD []),
    hashBucket digest (e.remote_addr.getD []),
    tf.hour,
    tf.hourSin,
    tf.hourCos,
    tf.weekday,
    tf.isWeekend,
    if optTruthyT e.remote_user then 1 else 0,
    if optTruthyT e.remote_user then ((e.remote_user.getD []).length : ℝ) else 0,
    (e.message.length : ℝ),
    if searchAny suspiciousPats path then 1 else 0,
    if searchAny sqliPats path then 1 else 0,
    if searchAny botPats (e.user_agent.getD []) then 1 else 0,
    hashBucket digest (normalizePath path)]

/-- `FeatureExtractor.transform` (the numpy row matrix, as a list of rows). -/
noncomputable def transform (digest : Text → Nat) (events : List LogEvent) :
    List (List ℝ) :=
  events.map (eventToFeatures digest)

/-- C7: for every event whose numeric fields are non-negative when present,
the feature extractor yields exactly 25 real values, the `status_code`
dimension is non-negative, and every absent numeric input defaults to 0
(status dimension, `log1p` of bytes and of request time are all 0 when the
fields are absent); the function is total, so extraction cannot fail on
missing optional fields. -/
theorem feature_vector_spec (digest : Text → Nat) (e : LogEvent)
    (hstatus : ∀ n, e.status = some n → 0 ≤ n) :
    (eventToFeatures digest e).length = 25
    ∧ 0 ≤ (eventToFeatures digest e).headI
    ∧ (e.status = none → (eventToFeatures digest e).headI = 0)
    ∧ (e.bytes_sent = none → (eventToFeatures digest e).getD 8 0 = 0)
    ∧ (e.request_time = none → (eventToFeatures digest e).getD 9 0 = 0)
    ∧ (transform digest [e] = [eventToFeatures digest e]) := by
  refine ⟨rfl, ?_, fun h => ?_, fun h => ?_, fun h => ?_, rfl⟩
  · cases hs : e.status with
    | none => simp [eventToFeatures, hs]
    | some n =>
      have hn := hstatus n hs
      simp only [eventToFeatures, hs, List.headI]
      exact_mod_cast hn
  · simp [eventToFeatures, h]
  · simp [eventToFeatures, h, log1p]
  · simp [eventToFeatures, h, log1p]

theorem feature_vector_spec_witness :
    (∀ n, ({ timestamp := ⟨2024, 1, 1, 0, 0, 0, 0, 0⟩ } : LogEvent).status = some n →
      0 ≤ n)
    ∧ ((eventToFeatures (fun _ => 0)
        { timestamp := ⟨2024, 1, 1, 0, 0, 0, 0, 0⟩ }).length = 25
      ∧ 0 ≤ (eventToFeatures (fun _ => 0)
          { timestamp := ⟨2024, 1, 1, 0, 0, 0, 0, 0⟩ }).headI
      ∧ (({ timestamp := ⟨2024, 1, 1, 0, 0, 0, 0, 0⟩ } : LogEvent).status = none →
        (eventToFeatures (fun _ => 0)
          { timestamp := ⟨2024, 1, 1, 0, 0, 0, 0, 0⟩ }).headI = 0)
      ∧ (({ timestamp := ⟨2024, 1, 1, 0, 0, 0, 0, 0⟩ } : LogEvent).bytes_sent = none →
        (eventToFeatures (fun _ => 0)
          { timestamp := ⟨2024, 1, 1, 0, 0, 0, 0, 0⟩ }).getD 8 0 = 0)
      ∧ (({ timestamp := ⟨2024, 1, 1, 0, 0, 0, 0, 0⟩ } : LogEvent).request_time = none →
        (eventToFeatures (fun _ => 0)
          { timestamp := ⟨2024, 1, 1, 0, 0, 0, 0, 0⟩ }).getD 9 0 = 0)
      ∧ (transform (fun _ => 0) [{ timestamp := ⟨2024, 1, 1, 0, 0, 0, 0, 0⟩ }] =
        [eventToFeatures (fun _ => 0) { timestamp := ⟨2024, 1, 1, 0, 0, 0, 0, 0⟩ }])) :=
  ⟨fun n h => by simp at h,
    feature_vector_spec (fun _ => 0) { timestamp := ⟨2024, 1, 1, 0, 0, 0, 0, 0⟩ }
      (fun n h => by simp at h)⟩

/-! ## Structured and plain-text line parsing (`application/parsers.py`) -/

/-- A parsed JSON payload dict, with one field per key the parser reads.
`none` means the key is absent; `some jnull` means it is present with
value `null`/`None` (the two differ for `in`-checks and `setdefault`). -/
structure Payload where
  timestamp : Option JVal := none
  time_local : Option JVal := none
  atTimestamp : Option JVal := none
  request : Option JVal := none
  method : Option JVal := none
  path : Option JVal := none
  uri : Option JVal := none
  request_uri : Option JVal := none
  protocol : Option JVal := none
  status : Option JVal := none
  bytes_sent : Option JVal := none
  body_bytes_sent : Option JVal := none
  request_time : Option JVal := none
  message : Option JVal := none
  level : Option JVal := none
  remote_addr : Option JVal := none
  ip : Option JVal := none
  client_ip : Option JVal := none
  remote_user : Option JVal := none
  user : Option JVal := none
  referrer : Option JVal := none
  referer : Option JVal := none
  user_agent : Option JVal := none
  http_user_agent : Option JVal := none
  service : Option JVal := none
  host : Option JVal := none
deriving DecidableEq

/-- Standard-library and third-party primitives used by the parsing layer,
passed as parameters of the embedding: `float(str)`, `str(float)`,
`datetime.strptime` with the nginx format, `datetime.fromisoformat`,
pydantic's datetime/int/float coercions for non-trivial inputs, and
`json.loads`. -/
structure StdlibModel where
  pyFloat : Text → Except Unit ℚ
  pyFloatStr : ℚ → Text
  strptimeNginx : Text → Except Unit DT
  fromIso : Text → Except Unit DT
  pydanticDT : JVal → Except Unit DT
  pydanticInt : JVal → Except Unit Int
  pydanticFloat : JVal → Except Unit ℚ
  jsonLoads : Text → Except Unit Payload

/-- `dict.get(key)`: a present `None` and an absent key both read as `None`. -/
def getv (f : Option JVal) : Option JVal :=
  match f with
  | some .jnull => none
  | x => x

/-- Python truthiness of a runtime value. -/
def jvTruthy (v : JVal) : Bool :=
  match v with
  | .jnull => false
  | .jstr s => !s.isEmpty
  | .jint n => n != 0
  | .jnum q => q != 0
  | .jdate _ => true

def optTruthy (o : Option JVal) : Bool :=
  match o with
  | some v => jvTruthy v
  | none => false

/-- Python `a or b`. -/
def pyOr (a b : Option JVal) : Option JVal := if optTruthy a then a else b

/-- Python `str(value)` (the datetime case is never reached by the modelled
flows). -/
def strOfJ (S : StdlibModel) (v : JVal) : Text :=
  match v with
  | .jstr s => s
  | .jint n => intStr n
  | .jnum q => S.pyFloatStr q
  | .jnull => "None".toList
  | .jdate _ => "datetime".toList

def jOfOptText : Option Text → JVal
  | some s => .jstr s
  | none => .jnull

def jOfOptInt : Option Int → JVal
  | some n => .jint n
  | none => .jnull

def jOfOptQ : Option ℚ → JVal
  | some q => .jnum q
  | none => .jnull

def dashT : Text := "-".toList

/-- `_clean_dash` on a string value. -/
def cleanDashT (t : Text) : Option Text :=
  if t = dashT || t = [] then none else some t

/-- `_clean_dash` on a payload value. -/
def cleanDashJ (S : StdlibModel) (v : Option JVal) : Option Text :=
  match v with
  | none => none
  | some w => cleanDashT (strOfJ S w)

/-- Python `int(float)`: truncation toward zero. -/
def pyTrunc (q : ℚ) : Int := if q < 0 then -((-q).floor) else q.floor

/-- `_parse_int`. -/
def parseIntP (S : StdlibModel) (v : Option JVal) : Except PErr (Option Int) :=
  match v with
  | none => .ok none
  | some (.jint n) => .ok (some n)
  | some w =>
    let text := strOfJ S w
    if text = dashT || text = [] then .ok none
    else
      match S.pyFloat text with
      | .ok q => .ok (some (pyTrunc q))
      | .error _ => .error (.formatError text)

/-- `_parse_float`. -/
def parseFloatP (S : StdlibModel) (v : Option JVal) : Except PErr (Option ℚ) :=
  match v with
  | none => .ok none
  | some (.jnum q) => .ok (some q)
  | some w =>
    let text := strOfJ S w
    if text = dashT || text = [] then .ok none
    else
      match S.pyFloat text with
      | .ok q => .ok (some q)
      | .error _ => .error (.formatError text)

/-- `value.replace("Z", "+00:00")`. -/
def replaceZ : Text → Text
  | [] => []
  | 'Z' :: r => '+' :: '0' :: '0' :: ':' :: '0' :: '0' :: replaceZ r
  | c :: r => c :: replaceZ r

/-- `_parse_nginx_time`: strptime with the access-log format, falling back
to ISO (with a trailing `Z` rewritten), else a hard failure. -/
def parseNginxTime (S : StdlibModel) (v : Text) : Except PErr DT :=
  match S.strptimeNginx v with
  | .ok d => .ok d
  | .error _ =>
    let v2 := if v.getLast? = some 'Z' then replaceZ v else v
    match S.fromIso v2 with
    | .ok d => .ok d
    | .error _ => .error (.formatError ("Unsupported timestamp format: ".toList ++ v))

/-- `_parse_request_line` (`REQUEST_RE.match`): `[A-Z]+`, whitespace, `\S+`,
optionally whitespace and `HTTP/[0-9.]+`; trailing input is ignored and any
failure of the mandatory part yields three `None`s. -/
def parseRequestLine (r : Option Text) : Option Text × Option Text × Option Text :=
  match r with
  | none => (none, none, none)
  | some t =>
    if t = [] || t = dashT then (none, none, none)
    else
      let mRun := t.takeWhile (fun c => 'A' ≤ c && c ≤ 'Z')
      let rest1 := t.drop mRun.length
      let ws := rest1.takeWhile pySpace
      let rest2 := rest1.drop ws.length
      let pRun := rest2.takeWhile (fun c => !pySpace c)
      let rest3 := rest2.drop pRun.length
      if mRun = [] || ws = [] || pRun = [] then (none, none, none)
      else
        let ws2 := rest3.takeWhile pySpace
        let rest4 := rest3.drop ws2.length
        let proto :=
          if ws2 = [] then none
          else if leadsWith "HTTP/".toList rest4 then
            let digs := (rest4.drop 5).takeWhile (fun c => c.isDigit || c == '.')
            if digs = [] then none else some ("HTTP/".toList ++ digs)
          else none
        (some mRun, some pRun, proto)

def joinSpace : List Text → Text
  | [] => []
  | [t] => t
  | t :: ts => t ++ ' ' :: joinSpace ts

/-- `_build_message`. -/
def buildMessageJ (S : StdlibModel) (m p pr r : Option JVal) : Text :=
  let keep := fun (o : Option JVal) =>
    match o with
    | some v => if jvTruthy v then some (strOfJ S v) else none
    | none => none
  let parts := [m, p, pr].filterMap keep
  match r with
  | some v => if jvTruthy v && !(v == .jstr dashT) then strOfJ S v else joinSpace parts
  | none => joinSpace parts

/-- `_status_to_level`. -/
def statusToLevel (status : Option Int) : Text :=
  match status with
  | none => "INFO".toList
  | some s =>
    if 500 ≤ s then "ERROR".toList
    else if 400 ≤ s then "WARNING".toList
    else if 300 ≤ s then "NOTICE".toList
    else "INFO".toList

def statusAsInt (f : Option JVal) : Option Int :=
  match getv f with
  | some (.jint n) => some n
  | _ => none

/-! `_normalize_payload`, split into its sequential steps. -/

/-- Timestamp synthesis from `time_local`/`@timestamp` when the `timestamp`
key is absent. -/
def npStep1 (S : StdlibModel) (p : Payload) : Except PErr Payload :=
  match p.timestamp with
  | some _ => .ok p
  | none =>
    let tl := pyOr (getv p.time_local) (getv p.atTimestamp)
    match tl with
    | some v =>
      if jvTruthy v then
        (parseNginxTime S (strOfJ S v)).map fun d => { p with timestamp := some (.jdate d) }
      else .ok p
    | none => .ok p

/-- Splitting a combined `request` string into method/path/protocol via
`setdefault` when both `method` and `path` are missing. -/
def npStep2 (S : StdlibModel) (p : Payload) : Payload :=
  let request := getv p.request
  let method := getv p.method
  let path := pyOr (pyOr (getv p.path) (getv p.uri)) (getv p.request_uri)
  if optTruthy request && !optTruthy method && !optTruthy path then
    let parsed := parseRequestLine (some (strOfJ S (request.getD .jnull)))
    let p1 := if p.method = none then { p with method := some (jOfOptText parsed.1) } else p
    let p2 := if p1.path = none then { p1 with path := some (jOfOptText parsed.2.1) } else p1
    if p2.protocol = none then { p2 with protocol := some (jOfOptText parsed.2.2) } else p2
  else p

/-- `status` coercion. -/
def npStep4 (S : StdlibModel) (p : Payload) : Except PErr Payload :=
  match getv p.status with
  | none => .ok p
  | some v => (parseIntP S (some v)).map fun r => { p with status := some (jOfOptInt r) }

/-- `bytes_sent`/`body_bytes_sent` coercion. -/
def npStep5 (S : StdlibModel) (p : Payload) : Except PErr Payload :=
  match pyOr (getv p.bytes_sent) (getv p.body_bytes_sent) with
  | none => .ok p
  | some v => (parseIntP S (some v)).map fun r => { p with bytes_sent := some (jOfOptInt r) }

/-- `request_time` coercion (triggered by key presence, `null` included). -/
def npStep6 (S : StdlibModel) (p : Payload) : Except PErr Payload :=
  match p.request_time with
  | none => .ok p
  | some _ =>
    (parseFloatP S (getv p.request_time)).map fun r =>
      { p with request_time := some (jOfOptQ r) }

/-- Message synthesis when `message` is falsy. -/
def npStep7 (S : StdlibModel) (p : Payload) : Payload :=
  if optTruthy (getv p.message) then p
  else
    let method := getv p.method
    let path := pyOr (pyOr (getv p.path) (getv p.uri)) (getv p.request_uri)
    let protocol := getv p.protocol
    let request := getv p.request
    { p with message := some (.jstr (buildMessageJ S method path protocol request)) }

/-- Level derivation when `level` is falsy. -/
def npStep8 (p : Payload) : Payload :=
  if optTruthy (getv p.level) then p
  else { p with level := some (.jstr (statusToLevel (statusAsInt p.status))) }

/-- `remote_addr` aliasing and dash-cleaning. -/
def npStep9 (S : StdlibModel) (p : Payload) : Payload :=
  let v := some (jOfOptText (cleanDashJ S (pyOr (getv p.remote_addr) (getv p.ip))))
  { p with remote_addr := v }

/-- `remote_user` aliasing and dash-cleaning. -/
def npStep10 (S : StdlibModel) (p : Payload) : Payload :=
  let v := some (jOfOptText (cleanDashJ S (pyOr (getv p.remote_user) (getv p.user))))
  { p with remote_user := v }

/-- Default `service` when both `service` and `host` are falsy. -/
def npStep11 (p : Payload) : Payload :=
  if !optTruthy (getv p.service) && !optTruthy (getv p.host) then
    { p with service := some (.jstr "nginx".toList) }
  else p

/-- `_normalize_payload`. -/
def normalizePayload (S : StdlibModel) (p : Payload) : Except PErr Payload :=
  (npStep1 S p).bind fun p1 =>
  (npStep4 S (npStep2 S p1)).bind fun p4 =>
  (npStep5 S p4).bind fun p5 =>
  (npStep6 S p5).bind fun p6 =>
  .ok (npStep11 (npStep10 S (npStep9 S (npStep8 (npStep7 S p6)))))

/-! `LogEvent.model_validate` (pydantic). -/

/-- First alias key present in the dict (`AliasChoices`); a present `null`
counts as present. -/
def firstPresent : List (Option JVal) → Option JVal
  | [] => none
  | some v :: _ => some v
  | none :: rest => firstPresent rest

def valMsg : Text := "validation".toList

/-- Validation of an optional `str` field (pydantic does not coerce numbers
to strings). -/
def toOptStr (v : Option JVal) : Except PErr (Option Text) :=
  match v with
  | none => .ok none
  | some .jnull => .ok none
  | some (.jstr s) => .ok (some s)
  | some _ => .error (.formatError valMsg)

/-- Validation of an optional `int` field. -/
def toOptInt (S : StdlibModel) (v : Option JVal) : Except PErr (Option Int) :=
  match v with
  | none => .ok none
  | some .jnull => .ok none
  | some (.jint n) => .ok (some n)
  | some w =>
    match S.pydanticInt w with
    | .ok n => .ok (some n)
    | .error _ => .error (.formatError valMsg)

/-- Validation of an optional `float` field. -/
def toOptFloat (S : StdlibModel) (v : Option JVal) : Except PErr (Option ℚ) :=
  match v with
  | none => .ok none
  | some .jnull => .ok none
  | some (.jnum q) => .ok (some q)
  | some (.jint n) => .ok (some (n : ℚ))
  | some w =>
    match S.pydanticFloat w with
    | .ok q => .ok (some q)
    | .error _ => .error (.formatError valMsg)

/-- Validation of a non-optional `str` field with a default. -/
def getStrD (v : Option JVal) (dflt : Text) : Except PErr Text :=
  match v with
  | none => .ok dflt
  | some (.jstr s) => .ok s
  | some _ => .error (.formatError valMsg)

/-- Validation of the required `timestamp` field. -/
def getDT (S : StdlibModel) (v : Option JVal) : Except PErr DT :=
  match v with
  | some (.jdate d) => .ok d
  | none => .error (.formatError valMsg)
  | some .jnull => .error (.formatError valMsg)
  | some w =>
    match S.pydanticDT w with
    | .ok d => .ok d
    | .error _ => .error (.formatError valMsg)

def optFalsyT (o : Option Text) : Bool :=
  match o with
  | none => true
  | some s => s.isEmpty

/-- `LogEvent.model_validate` on a payload dict: alias resolution, per-field
validation, then the `ensure_source` validator. -/
def modelValidate (S : StdlibModel) (p : Payload) : Except PErr LogEvent :=
  (getDT S p.timestamp).bind fun ts =>
  (toOptStr p.host).bind fun host =>
  (toOptStr p.service).bind fun service0 =>
  (toOptStr (firstPresent [p.remote_addr, p.ip, p.client_ip])).bind fun remote_addr =>
  (toOptStr (firstPresent [p.remote_user, p.user])).bind fun remote_user =>
  (toOptStr p.method).bind fun method =>
  (toOptStr (firstPresent [p.path, p.uri, p.request_uri])).bind fun path =>
  (toOptStr p.protocol).bind fun protocol =>
  (toOptInt S p.status).bind fun status =>
  (toOptInt S (firstPresent [p.bytes_sent, p.body_bytes_sent])).bind fun bytes_sent =>
  (toOptStr (firstPresent [p.referrer, p.referer])).bind fun referrer =>
  (toOptStr (firstPresent [p.user_agent, p.http_user_agent])).bind fun user_agent =>
  (toOptFloat S p.request_time).bind fun request_time =>
  (getStrD p.message []).bind fun message =>
  (getStrD p.level "INFO".toList).bind fun level =>
  .ok { timestamp := ts, host := host,
        service := if optFalsyT host && optFalsyT service0 then some "nginx".toList
          else service0,
        remote_addr := remote_addr,
        remote_user := remote_user, method := method, path := path, protocol := protocol,
        status := status, bytes_sent := bytes_sent, referrer := referrer,
        user_agent := user_agent, request_time := request_time, message := message,
        level := level }

/-- `_normalize_payload` followed by `model_validate`: the structured-format
pipeline after `json.loads`. -/
def parseStructured (S : StdlibModel) (p : Payload) : Except PErr LogEvent :=
  (normalizePayload S p).bind (modelValidate S)

/-- `LogParser.parse_json_line`. -/
def parseJsonLine (S : StdlibModel) (line : Text) : Except PErr LogEvent :=
  match S.jsonLoads line with
  | .error _ => .error (.formatError "json".toList)
  | .ok pl => parseStructured S pl

/-- The named groups of `DEFAULT_PLAIN_PATTERNS` (the nginx access-log
grammar). -/
structure PlainGroups where
  remote_addr : Text
  ident : Text
  remote_user : Text
  time_local : Text
  request : Text
  status : Text
  bytes_sent : Text
  referrer : Text
  user_agent : Text
  request_time : Option Text
deriving DecidableEq

/-- One literal character. -/
def expectC (c : Char) : Text → Option Text
  | x :: r => if x = c then some r else none
  | [] => none

/-- `\S+`: a non-empty maximal run of non-whitespace. -/
def tokNS (s : Text) : Option (Text × Text) :=
  let r := s.takeWhile (fun c => !pySpace c)
  if r = [] then none else some (r, s.drop r.length)

/-- A maximal run of characters other than `stop` (`[^x]*` or `[^x]+`). -/
def tokUntil (stop : Char) (s : Text) (allowEmpty : Bool) : Option (Text × Text) :=
  let r := s.takeWhile (fun c => c != stop)
  if !allowEmpty && r = [] then none else some (r, s.drop r.length)

/-- `"...`": a quoted `[^"]*` group. -/
def pmQuoted (s : Text) : Option (Text × Text) :=
  match expectC '"' s with
  | none => none
  | some s1 =>
    match tokUntil '"' s1 true with
    | none => none
    | some (r, s2) =>
      match expectC '"' s2 with
      | none => none
      | some s3 => some (r, s3)

/-- `\S+ ` (a token followed by one space). -/
def pmTokSp (s : Text) : Option (Text × Text) :=
  match tokNS s with
  | none => none
  | some (r, s1) =>
    match expectC ' ' s1 with
    | none => none
    | some s2 => some (r, s2)

/-- `\[[^\]]+\] `. -/
def pmTime (s : Text) : Option (Text × Text) :=
  match expectC '[' s with
  | none => none
  | some s1 =>
    match tokUntil ']' s1 false with
    | none => none
    | some (r, s2) =>
      match expectC ']' s2 with
      | none => none
      | some s3 =>
        match expectC ' ' s3 with
        | none => none
        | some s4 => some (r, s4)

/-- `\d{3} ` (exactly three digits, then a space). -/
def pmStatus (s : Text) : Option (Text × Text) :=
  let st := s.take 3
  if st.length == 3 && st.all Char.isDigit then
    match expectC ' ' (s.drop 3) with
    | none => none
    | some s1 => some (st, s1)
  else none

/-- The optional `( [\d.]+)?$` tail. -/
def pmTail (s : Text) : Option (Option Text) :=
  match s with
  | [] => some none
  | ' ' :: r2 =>
    let run := r2.takeWhile (fun c => c.isDigit || c == '.')
    if !run.isEmpty && (r2.drop run.length).isEmpty then some (some run) else none
  | _ => none

/-- `regex.match(line)` for the plain nginx pattern:
`\S+ \S+ \S+ \[[^\]]+\] "[^"]*" \d{3} \S+ "[^"]*" "[^"]*"( [\d.]+)?$`
(the trailing `$` is modelled as end of input; `parse_lines` strips
newlines before matching).  The delimiters following each greedy run start
with a character excluded from the run, so maximal-run parsing coincides
with the regex's backtracking semantics. -/
def plainMatch (line : Text) : Option PlainGroups :=
  match pmTokSp line with
  | none => none
  | some (ra, s2) =>
    match pmTokSp s2 with
    | none => none
    | some (idn, s4) =>
      match pmTokSp s4 with
      | none => none
      | some (ru, s6) =>
        match pmTime s6 with
        | none => none
        | some (tl, s10) =>
          match pmQuoted s10 with
          | none => none
          | some (req, s13) =>
            match expectC ' ' s13 with
            | none => none
            | some s14 =>
              match pmStatus s14 with
              | none => none
              | some (st, s16) =>
                match pmTokSp s16 with
                | none => none
                | some (bys, s19) =>
                  match pmQuoted s19 with
                  | none => none
                  | some (ref, s21) =>
                    match expectC ' ' s21 with
                    | none => none
                    | some s22 =>
                      match pmQuoted s22 with
                      | none => none
                      | some (ua, s25) =>
                        match pmTail s25 with
                        | none => none
                        | some rt => some ⟨ra, idn, ru, tl, req, st, bys, ref, ua, rt⟩

/-- `LogParser.parse_plain_text`: match the grammar, build the payload dict
(dash-cleaning the four optional text fields, parsing time/status/bytes/
request-time, splitting the request line, synthesizing message and level),
then validate it into a `LogEvent`. -/
def parsePlainText (S : StdlibModel) (line : Text) : Except PErr LogEvent :=
  match plainMatch line with
  | none => .error (.formatError "Plain text log did not match nginx access log format".toList)
  | some g =>
    (parseNginxTime S g.time_local).bind fun ts =>
    (parseIntP S (some (.jstr g.status))).bind fun status =>
    (parseIntP S (some (.jstr g.bytes_sent))).bind fun bytes =>
    (match g.request_time with
      | none => Except.ok (none : Option ℚ)
      | some t => parseFloatP S (some (.jstr t))).bind fun rt =>
    let parsed := parseRequestLine (some g.request)
    let payload : Payload :=
      { timestamp := some (.jdate ts)
        remote_addr := some (jOfOptText (cleanDashT g.remote_addr))
        remote_user := some (jOfOptText (cleanDashT g.remote_user))
        method := some (jOfOptText parsed.1)
        path := some (jOfOptText parsed.2.1)
        protocol := some (jOfOptText parsed.2.2)
        status := some (jOfOptInt status)
        bytes_sent := some (jOfOptInt bytes)
        referrer := some (jOfOptText (cleanDashT g.referrer))
        user_agent := some (jOfOptText (cleanDashT g.user_agent))
        request_time := some (jOfOptQ rt)
        message := some (.jstr (buildMessageJ S (parsed.1.map .jstr) (parsed.2.1.map .jstr)
          (parsed.2.2.map .jstr) (some (.jstr g.request))))
        level := some (.jstr (statusToLevel status))
        service := some (.jstr "nginx".toList) }
    modelValidate S payload

/-! ## Theorems about optional-field cleaning (C5) -/

/-- The payload fields relevant to the four optional text fields are
untouched by a normalization step. -/
def auxFieldsEq (p q : Payload) : Prop :=
  q.remote_addr = p.remote_addr ∧ q.ip = p.ip ∧ q.client_ip = p.client_ip ∧
  q.remote_user = p.remote_user ∧ q.user = p.user ∧ q.referrer = p.referrer ∧
  q.referer = p.referer ∧ q.user_agent = p.user_agent ∧ q.http_user_agent = p.http_user_agent

theorem exceptMap_ok {ε α β : Type} (f : α → β) (x : Except ε α) (b : β)
    (h : x.map f = .ok b) : ∃ a, x = .ok a ∧ f a = b := by
  cases x with
  | error e => simp [Except.map] at h
  | ok a =>
    refine ⟨a, rfl, ?_⟩
    simpa [Except.map] using h

theorem npStep1_fields (S : StdlibModel) (p q : Payload) (h : npStep1 S p = .ok q) :
    auxFieldsEq p q := by
  unfold npStep1 at h
  split at h
  · cases h; exact ⟨rfl, rfl, rfl, rfl, rfl, rfl, rfl, rfl, rfl⟩
  · dsimp only at h
    split at h
    · split at h
      · obtain ⟨d, _, rfl⟩ := exceptMap_ok _ _ _ h
        exact ⟨rfl, rfl, rfl, rfl, rfl, rfl, rfl, rfl, rfl⟩
      · cases h; exact ⟨rfl, rfl, rfl, rfl, rfl, rfl, rfl, rfl, rfl⟩
    · cases h; exact ⟨rfl, rfl, rfl, rfl, rfl, rfl, rfl, rfl, rfl⟩

theorem npStep2_fields (S : StdlibModel) (p : Payload) :
    auxFieldsEq p (npStep2 S p) := by
  refine ⟨?_, ?_, ?_, ?_, ?_, ?_, ?_, ?_, ?_⟩ <;>
    simp only [npStep2, apply_ite Payload.remote_addr, apply_ite Payload.ip,
      apply_ite Payload.client_ip, apply_ite Payload.remote_user, apply_ite Payload.user,
      apply_ite Payload.referrer, apply_ite Payload.referer, apply_ite Payload.user_agent,
      apply_ite Payload.http_user_agent, ite_self]

theorem npStep4_fields (S : StdlibModel) (p q : Payload) (h : npStep4 S p = .ok q) :
    auxFieldsEq p q := by
  unfold npStep4 at h
  split at h
  · cases h; exact ⟨rfl, rfl, rfl, rfl, rfl, rfl, rfl, rfl, rfl⟩
  · obtain ⟨r, _, rfl⟩ := exceptMap_ok _ _ _ h
    exact ⟨rfl, rfl, rfl, rfl, rfl, rfl, rfl, rfl, rfl⟩

theorem npStep5_fields (S : StdlibModel) (p q : Payload) (h : npStep5 S p = .ok q) :
    auxFieldsEq p q := by
  unfold npStep5 at h
  split at h
  · cases h; exact ⟨rfl, rfl, rfl, rfl, rfl, rfl, rfl, rfl, rfl⟩
  · obtain ⟨r, _, rfl⟩ := exceptMap_ok _ _ _ h
    exact ⟨rfl, rfl, rfl, rfl, rfl, rfl, rfl, rfl, rfl⟩

theorem npStep6_fields (S : StdlibModel) (p q : Payload) (h : npStep6 S p = .ok q) :
    auxFieldsEq p q := by
  unfold npStep6 at h
  split at h
  · cases h; exact ⟨rfl, rfl, rfl, rfl, rfl, rfl, rfl, rfl, rfl⟩
  · obtain ⟨r, _, rfl⟩ := exceptMap_ok _ _ _ h
    exact ⟨rfl, rfl, rfl, rfl, rfl, rfl, rfl, rfl, rfl⟩

theorem npStep7_fields (S : StdlibModel) (p : Payload) :
    auxFieldsEq p (npStep7 S p) := by
  unfold npStep7
  split <;> exact ⟨rfl, rfl, rfl, rfl, rfl, rfl, rfl, rfl, rfl⟩

theorem npStep8_fields (p : Payload) : auxFieldsEq p (npStep8 p) := by
  unfold npStep8
  split <;> exact ⟨rfl, rfl, rfl, rfl, rfl, rfl, rfl, rfl, rfl⟩

theorem npStep11_keeps (p : Payload) :
    (npStep11 p).remote_addr = p.remote_addr ∧ (npStep11 p).remote_user = p.remote_user ∧
    (npStep11 p).referrer = p.referrer ∧ (npStep11 p).referer = p.referer ∧
    (npStep11 p).user_agent = p.user_agent ∧
    (npStep11 p).http_user_agent = p.http_user_agent := by
  unfold npStep11
  split <;> exact ⟨rfl, rfl, rfl, rfl, rfl, rfl⟩

theorem auxFieldsEq_trans {p q r : Payload} (h1 : auxFieldsEq p q)
    (h2 : auxFieldsEq q r) : auxFieldsEq p r := by
  obtain ⟨a1, a2, a3, a4, a5, a6, a7, a8, a9⟩ := h1
  obtain ⟨b1, b2, b3, b4, b5, b6, b7, b8, b9⟩ := h2
  exact ⟨b1.trans a1, b2.trans a2, b3.trans a3, b4.trans a4, b5.trans a5,
    b6.trans a6, b7.trans a7, b8.trans a8, b9.trans a9⟩

/-- Through `_normalize_payload`, the referrer/user-agent keys (and their
aliases) pass through unchanged, while `remote_addr` and `remote_user` are
overwritten with the dash-cleaned value of their alias chain read from the
original payload. -/
theorem normalizePayload_fields (S : StdlibModel) (p q : Payload)
    (h : normalizePayload S p = .ok q) :
    q.referrer = p.referrer ∧ q.referer = p.referer ∧ q.user_agent = p.user_agent ∧
    q.http_user_agent = p.http_user_agent ∧
    q.remote_addr = some (jOfOptText (cleanDashJ S (pyOr (getv p.remote_addr) (getv p.ip)))) ∧
    q.remote_user = some (jOfOptText (cleanDashJ S (pyOr (getv p.remote_user) (getv p.user)))) := by
  unfold normalizePayload at h
  cases h1 : npStep1 S p with
  | error e => rw [h1] at h; simp [Except.bind] at h
  | ok p1 =>
    rw [h1] at h
    simp only [Except.bind] at h
    cases h4 : npStep4 S (npStep2 S p1) with
    | error e => rw [h4] at h; simp [Except.bind] at h
    | ok p4 =>
      rw [h4] at h
      simp only [Except.bind] at h
      cases h5 : npStep5 S p4 with
      | error e => rw [h5] at h; simp [Except.bind] at h
      | ok p5 =>
        rw [h5] at h
        simp only [Except.bind] at h
        cases h6 : npStep6 S p5 with
        | error e => rw [h6] at h; simp [Except.bind] at h
        | ok p6 =>
          rw [h6] at h
          simp only [Except.bind] at h
          cases h
          have haux : auxFieldsEq p p6 :=
            auxFieldsEq_trans (npStep1_fields S p p1 h1)
              (auxFieldsEq_trans (npStep2_fields S p1)
                (auxFieldsEq_trans (npStep4_fields S _ p4 h4)
                  (auxFieldsEq_trans (npStep5_fields S p4 p5 h5)
                    (npStep6_fields S p5 p6 h6))))
          have haux2 : auxFieldsEq p (npStep8 (npStep7 S p6)) :=
            auxFieldsEq_trans haux
              (auxFieldsEq_trans (npStep7_fields S p6) (npStep8_fields (npStep7 S p6)))
          obtain ⟨a1, a2, a3, a4, a5, a6, a7, a8, a9⟩ := haux2
          obtain ⟨k1, k2, k3, k4, k5, k6⟩ :=
            npStep11_keeps (npStep10 S (npStep9 S (npStep8 (npStep7 S p6))))
          refine ⟨?_, ?_, ?_, ?_, ?_, ?_⟩
          · rw [k3]; exact a6
          · rw [k4]; exact a7
          · rw [k5]; exact a8
          · rw [k6]; exact a9
          · rw [k1]
            show (npStep9 S (npStep8 (npStep7 S p6))).remote_addr = _
            unfold npStep9
            rw [a1, a2]
          · rw [k2]
            show (npStep10 S (npStep9 S (npStep8 (npStep7 S p6)))).remote_user = _
            unfold npStep10
            show some (jOfOptText (cleanDashJ S (pyOr
              (getv (npStep9 S (npStep8 (npStep7 S p6))).remote_user)
              (getv (npStep9 S (npStep8 (npStep7 S p6))).user)))) = _
            have e1 : (npStep9 S (npStep8 (npStep7 S p6))).remote_user =
                (npStep8 (npStep7 S p6)).remote_user := rfl
            have e2 : (npStep9 S (npStep8 (npStep7 S p6))).user =
                (npStep8 (npStep7 S p6)).user := rfl
            rw [e1, e2, a4, a5]

/-- `model_validate` binds each optional text field to the validated value
of its alias chain. -/
theorem modelValidate_fields (S : StdlibModel) (p : Payload) (e : LogEvent)
    (h : modelValidate S p = .ok e) :
    toOptStr (firstPresent [p.remote_addr, p.ip, p.client_ip]) = .ok e.remote_addr ∧
    toOptStr (firstPresent [p.remote_user, p.user]) = .ok e.remote_user ∧
    toOptStr (firstPresent [p.referrer, p.referer]) = .ok e.referrer ∧
    toOptStr (firstPresent [p.user_agent, p.http_user_agent]) = .ok e.user_agent := by
  unfold modelValidate at h
  cases c1 : getDT S p.timestamp with
  | error e1 => rw [c1] at h; simp [Except.bind] at h
  | ok ts =>
  rw [c1] at h; simp only [Except.bind] at h
  cases c2 : toOptStr p.host with
  | error e1 => rw [c2] at h; simp [Except.bind] at h
  | ok host =>
  rw [c2] at h; simp only [Except.bind] at h
  cases c3 : toOptStr p.service with
  | error e1 => rw [c3] at h; simp [Except.bind] at h
  | ok service0 =>
  rw [c3] at h; simp only [Except.bind] at h
  cases c4 : toOptStr (firstPresent [p.remote_addr, p.ip, p.client_ip]) with
  | error e1 => rw [c4] at h; simp [Except.bind] at h
  | ok remote_addr =>
  rw [c4] at h; simp only [Except.bind] at h
  cases c5 : toOptStr (firstPresent [p.remote_user, p.user]) with
  | error e1 => rw [c5] at h; simp [Except.bind] at h
  | ok remote_user =>
  rw [c5] at h; simp only [Except.bind] at h
  cases c6 : toOptStr p.method with
  | error e1 => rw [c6] at h; simp [Except.bind] at h
  | ok method =>
  rw [c6] at h; simp only [Except.bind] at h
  cases c7 : toOptStr (firstPresent [p.path, p.uri, p.request_uri]) with
  | error e1 => rw [c7] at h; simp [Except.bind] at h
  | ok path =>
  rw [c7] at h; simp only [Except.bind] at h
  cases c8 : toOptStr p.protocol with
  | error e1 => rw [c8] at h; simp [Except.bind] at h
  | ok protocol =>
  rw [c8] at h; simp only [Except.bind] at h
  cases c9 : toOptInt S p.status with
  | error e1 => rw [c9] at h; simp [Except.bind] at h
  | ok status =>
  rw [c9] at h; simp only [Except.bind] at h
  cases c10 : toOptInt S (firstPresent [p.bytes_sent, p.body_bytes_sent]) with
  | error e1 => rw [c10] at h; simp [Except.bind] at h
  | ok bytes_sent =>
  rw [c10] at h; simp only [Except.bind] at h
  cases c11 : toOptStr (firstPresent [p.referrer, p.referer]) with
  | error e1 => rw [c11] at h; simp [Except.bind] at h
  | ok referrer =>
  rw [c11] at h; simp only [Except.bind] at h
  cases c12 : toOptStr (firstPresent [p.user_agent, p.http_user_agent]) with
  | error e1 => rw [c12] at h; simp [Except.bind] at h
  | ok user_agent =>
  rw [c12] at h; simp only [Except.bind] at h
  cases c13 : toOptFloat S p.request_time with
  | error e1 => rw [c13] at h; simp [Except.bind] at h
  | ok request_time =>
  rw [c13] at h; simp only [Except.bind] at h
  cases c14 : getStrD p.message [] with
  | error e1 => rw [c14] at h; simp [Except.bind] at h
  | ok message =>
  rw [c14] at h; simp only [Except.bind] at h
  cases c15 : getStrD p.level "INFO".toList with
  | error e1 => rw [c15] at h; simp [Except.bind] at h
  | ok level =>
  rw [c15] at h; simp only [Except.bind] at h
  cases h
  exact ⟨rfl, rfl, rfl, rfl⟩

theorem toOptStr_jOfOptText (x : Option Text) :
    toOptStr (some (jOfOptText x)) = .ok x := by
  cases x <;> rfl

/-- C5 amended: in the plain format all four optional text fields
(`remote_addr`, `remote_user`, `referrer`, `user_agent`) are dash/empty
cleaned into absence; in the structured format only `remote_addr` and
`remote_user` are cleaned (after their `or`-based alias fallback to
`ip`/`user`), while `referrer` and `user_agent` are passed through
unchanged, so a dash or empty string there stays present. -/
theorem optional_dash_amended (S : StdlibModel) :
    (∀ line g e, plainMatch line = some g → parsePlainText S line = .ok e →
      e.remote_addr = cleanDashT g.remote_addr
      ∧ e.remote_user = cleanDashT g.remote_user
      ∧ e.referrer = cleanDashT g.referrer
      ∧ e.user_agent = cleanDashT g.user_agent)
    ∧ (∀ p e, parseStructured S p = .ok e →
      e.remote_addr = cleanDashJ S (pyOr (getv p.remote_addr) (getv p.ip))
      ∧ e.remote_user = cleanDashJ S (pyOr (getv p.remote_user) (getv p.user))
      ∧ (∀ s, firstPresent [p.referrer, p.referer] = some (.jstr s) → e.referrer = some s)
      ∧ (∀ s, firstPresent [p.user_agent, p.http_user_agent] = some (.jstr s) →
          e.user_agent = some s)) := by
  constructor
  · intro line g e hm h
    unfold parsePlainText at h
    rw [hm] at h
    dsimp only at h
    cases d1 : parseNginxTime S g.time_local with
    | error e1 => rw [d1] at h; simp [Except.bind] at h
    | ok ts =>
    rw [d1] at h; simp only [Except.bind] at h
    cases d2 : parseIntP S (some (.jstr g.status)) with
    | error e1 => rw [d2] at h; simp [Except.bind] at h
    | ok status =>
    rw [d2] at h; simp only [Except.bind] at h
    cases d3 : parseIntP S (some (.jstr g.bytes_sent)) with
    | error e1 => rw [d3] at h; simp [Except.bind] at h
    | ok bytes =>
    rw [d3] at h; simp only [Except.bind] at h
    cases d4 : (match g.request_time with
      | none => Except.ok (none : Option ℚ)
      | some t => parseFloatP S (some (.jstr t))) with
    | error e1 => rw [d4] at h; simp [Except.bind] at h
    | ok rt =>
    rw [d4] at h; simp only [Except.bind] at h
    obtain ⟨m1, m2, m3, m4⟩ := modelValidate_fields S _ e h
    simp only [firstPresent, toOptStr_jOfOptText] at m1 m2 m3 m4
    exact ⟨(Except.ok.inj m1).symm, (Except.ok.inj m2).symm,
      (Except.ok.inj m3).symm, (Except.ok.inj m4).symm⟩
  · intro p e h
    unfold parseStructured at h
    cases hn : normalizePayload S p with
    | error e1 => rw [hn] at h; simp [Except.bind] at h
    | ok q =>
    rw [hn] at h; simp only [Except.bind] at h
    obtain ⟨f1, f2, f3, f4, f5, f6⟩ := normalizePayload_fields S p q hn
    obtain ⟨m1, m2, m3, m4⟩ := modelValidate_fields S q e h
    rw [f5] at m1
    rw [f6] at m2
    simp only [firstPresent] at m1 m2
    rw [toOptStr_jOfOptText] at m1 m2
    refine ⟨(Except.ok.inj m1).symm, (Except.ok.inj m2).symm, fun s hs => ?_, fun s hs => ?_⟩
    · rw [f1, f2, hs] at m3
      simpa [toOptStr] using (Except.ok.inj m3).symm
    · rw [f3, f4, hs] at m4
      simpa [toOptStr] using (Except.ok.inj m4).symm

def textToNat (t : Text) : Nat := t.foldl (fun a c => a * 10 + (c.toNat - 48)) 0

/-- A concrete instantiation of the standard-library parameters: `float()`
accepting decimal digit strings, `strptime` accepting one fixed access-log
timestamp, pydantic parsing any string timestamp to that instant. -/
def stdlibStub : StdlibModel :=
  { pyFloat := fun t =>
      if !t.isEmpty && t.all Char.isDigit then .ok ((textToNat t : ℕ) : ℚ) else .error ()
    pyFloatStr := fun _ => []
    strptimeNginx := fun t =>
      if t = "01/Jan/2024:00:00:00 +0000".toList then .ok ⟨2024, 1, 1, 0, 0, 0, 0, 0⟩
      else .error ()
    fromIso := fun _ => .error ()
    pydanticDT := fun v =>
      match v with
      | .jstr _ => .ok ⟨2024, 1, 1, 0, 0, 0, 0, 0⟩
      | _ => .error ()
    pydanticInt := fun _ => .error ()
    pydanticFloat := fun _ => .error ()
    jsonLoads := fun _ => .error () }

/-- The payload of the JSON line
`{"timestamp": "2024-01-01T00:00:00+00:00", "referrer": "-", "user_agent": ""}`. -/
def cexPayload : Payload :=
  { timestamp := some (.jstr "2024-01-01T00:00:00+00:00".toList)
    referrer := some (.jstr "-".toList)
    user_agent := some (.jstr []) }

def cexLine : Text :=
  "\x7b\"timestamp\": \"2024-01-01T00:00:00+00:00\", \"referrer\": \"-\", \"user_agent\": \"\"\x7d".toList

/-- `stdlibStub` with `json.loads` decoding the counterexample line. -/
def stdlibStubJson : StdlibModel :=
  { stdlibStub with jsonLoads := fun t => if t = cexLine then .ok cexPayload else .error () }

def cexEvent : LogEvent :=
  { timestamp := ⟨2024, 1, 1, 0, 0, 0, 0, 0⟩, service := some "nginx".toList,
    referrer := some "-".toList, user_agent := some [], message := [],
    level := "INFO".toList }

/-- C5 counterexample: a structured line whose `referrer` is the dash and
whose `user_agent` is the empty string parses to an event where both fields
are still PRESENT (`referrer = "-"`, `user_agent = ""`): `_normalize_payload`
dash-cleans only `remote_addr` and `remote_user`, and pydantic keeps the
values as they are. -/
theorem optional_dash_counterexample :
    parseJsonLine stdlibStubJson cexLine = .ok cexEvent
    ∧ cexEvent.referrer = some "-".toList
    ∧ cexEvent.user_agent = some [] :=
  ⟨rfl, rfl, rfl⟩

def plainLine : Text :=
  "1.2.3.4 - bob [01/Jan/2024:00:00:00 +0000] \"GET /index.html HTTP/1.1\" 200 512 \"-\" \"curl/8\"".toList

def plainGroups0 : PlainGroups :=
  { remote_addr := "1.2.3.4".toList, ident := "-".toList, remote_user := "bob".toList,
    time_local := "01/Jan/2024:00:00:00 +0000".toList,
    request := "GET /index.html HTTP/1.1".toList, status := "200".toList,
    bytes_sent := "512".toList, referrer := "-".toList, user_agent := "curl/8".toList,
    request_time := none }

def plainEvent0 : LogEvent :=
  { timestamp := ⟨2024, 1, 1, 0, 0, 0, 0, 0⟩, service := some "nginx".toList,
    remote_addr := some "1.2.3.4".toList, remote_user := some "bob".toList,
    method := some "GET".toList, path := some "/index.html".toList,
    protocol := some "HTTP/1.1".toList, status := some 200, bytes_sent := some 512,
    referrer := none, user_agent := some "curl/8".toList,
    message := "GET /index.html HTTP/1.1".toList, level := "INFO".toList }

theorem optional_dash_amended_witness :
    plainMatch plainLine = some plainGroups0
    ∧ parsePlainText stdlibStub plainLine = .ok plainEvent0
    ∧ parseStructured stdlibStubJson cexPayload = .ok cexEvent
    ∧ (plainEvent0.remote_addr = cleanDashT plainGroups0.remote_addr
      ∧ plainEvent0.remote_user = cleanDashT plainGroups0.remote_user
      ∧ plainEvent0.referrer = cleanDashT plainGroups0.referrer
      ∧ plainEvent0.user_agent = cleanDashT plainGroups0.user_agent)
    ∧ cexEvent.referrer = some "-".toList :=
  ⟨rfl, rfl, rfl,
    (optional_dash_amended stdlibStub).1 plainLine plainGroups0 plainEvent0 rfl rfl,
    ((optional_dash_amended stdlibStubJson).2 cexPayload cexEvent rfl).2.2.1
      "-".toList rfl⟩

end LogAnom
